import Mathlib

/-!
Verification of the Accento-Meet signaling server (`server.py`).

The server keeps one global dictionary
`rooms : room_id -> dict(client_id -> record)`; each `record` is a Python
dict holding `ws`, `displayName`, `is_host`, `is_approved` for a
participant, while the special key `"_meta"` (inserted by the
`lock-room` / `unlock-room` / `set-approval` actions) maps to a dict with
`require_approval` / `locked` and none of the participant fields.

The shallow embedding below models every Python dict as an
insertion-ordered association list; a dict value is a record of optional
fields, mirroring `dict.get` returning `None` for an absent key.  Each
section of the websocket handler (`websocket_endpoint`) becomes a pure
function from the global state and an inbound message to the new state,
the list of payloads passed to `safe_send` (tagged with the websocket
they are sent on), the list of websockets the server closes, and an
optional uncaught exception (an attribute/key error escaping the
handler, which kills the connection task without running the disconnect
cleanup).
-/

/-- A value stored in a room dictionary: a participant record or the
`"_meta"` record.  A field is `none` when the corresponding key is
absent from the Python dict. -/
structure Rec where
  ws : Option Nat := none
  displayName : Option String := none
  is_host : Option Bool := none
  is_approved : Option Bool := none
  require_approval : Option Bool := none
  locked : Option Bool := none
deriving Repr, DecidableEq

/-- Python truthiness of `d.get(k)` for a boolean-or-absent field. -/
def truthy : Option Bool → Bool
  | some b => b
  | none => false

/-- `rec.get("is_host")` used as a condition (lines 68, 85, 100 of
`server.py`), and `rec.get("is_host", False)` (line 172): both are the
stored boolean, `False` when absent. -/
def isHost (r : Rec) : Bool := truthy r.is_host

/-- `rec.get("is_approved")` / `rec.get("is_approved", False)`. -/
def isApproved (r : Rec) : Bool := truthy r.is_approved

/-- Python truthiness of an optional string (`None` and `""` are falsy). -/
def truthyStr (o : Option String) : Bool := o.getD "" != ""

/-- `d[k]` read: first binding of `k` in the association list (keys are
unique in a Python dict; insertion order is preserved). -/
def dictGet (d : List (String × α)) (k : String) : Option α :=
  (d.find? (fun e => e.1 == k)).map Prod.snd

/-- `k in d`. -/
def dictMem (d : List (String × α)) (k : String) : Bool :=
  d.any (fun e => e.1 == k)

/-- `d[k] = v`: replaces the binding in place when the key exists
(keeping its position), otherwise appends it (Python dict insertion
order).  Keys of a Python dict are unique, so replacing the first
matching binding is the dict semantics. -/
def dictSet (d : List (String × α)) (k : String) (v : α) : List (String × α) :=
  match d with
  | [] => [(k, v)]
  | e :: es => if e.1 == k then (k, v) :: es else e :: dictSet es k v

/-- `d[k].f = ...`: in-place mutation of the (unique) record stored at
`k`; a no-op when the key is absent. -/
def dictModify (d : List (String × α)) (k : String) (f : α → α) : List (String × α) :=
  match d with
  | [] => []
  | e :: es => if e.1 == k then (e.1, f e.2) :: es else e :: dictModify es k f

/-- `del d[k]`. -/
def dictErase (d : List (String × α)) (k : String) : List (String × α) :=
  d.filter (fun e => e.1 != k)

/-- One room: the dict `client_id -> record` (plus possibly `"_meta"`). -/
abbrev Room := List (String × Rec)

/-- The global `rooms` dictionary. -/
abbrev Rooms := List (String × Room)

/-- An inbound JSON message, with the fields the server reads modelled
explicitly and all remaining fields carried opaquely in `rest` (they are
relevant only because signaling messages are forwarded verbatim). -/
structure Msg where
  type : Option String := none
  toId : Option String := none
  msgFrom : Option String := none
  action : Option String := none
  target : Option String := none
  value : Option Bool := none
  displayName : Option String := none
  text : Option String := none
  rest : String := ""
deriving Repr, DecidableEq

/-- The `{id, displayName, is_host}` projection built by
`_make_participant_info`. -/
structure PInfo where
  id : String
  displayName : String
  is_host : Bool
deriving Repr, DecidableEq

/-- `_make_participant_info` (lines 26-28). -/
def mkParticipantInfo (cid : String) (r : Rec) : PInfo :=
  { id := cid, displayName := r.displayName.getD "", is_host := isHost r }

/-- An outbound payload handed to `safe_send` (or forwarded verbatim). -/
inductive Out where
  | errorMsg (message : String)
  | waiting
  | joinRequest (pid pname : String)
  | welcome (clientId : String) (participants : List PInfo) (hostId : Option String)
  | participantJoined (p : PInfo)
  | needOffer (target : String)
  | forwarded (m : Msg)
  | chat (fromId text : String)
  | command (cmd fromId : String)
  | system (message : String)
  | participantsUpdate (participants : List PInfo) (hostId : Option String)
  | roomMeta (require_approval locked : Option Bool)
  | roomLock (locked : Bool)
  | participantLeft (pid pname : String)
deriving Repr, DecidableEq

/-- The `type` tag carried by an outbound payload (the `"type"` field of
the JSON dict the server builds; for a forwarded inbound message it is
whatever the sender put there). -/
def outType : Out → String
  | .errorMsg _ => "error"
  | .waiting => "waiting"
  | .joinRequest _ _ => "join-request"
  | .welcome _ _ _ => "welcome"
  | .participantJoined _ => "participant-joined"
  | .needOffer _ => "need-offer"
  | .forwarded m => m.type.getD "None"
  | .chat _ _ => "chat"
  | .command _ _ => "command"
  | .system _ => "system"
  | .participantsUpdate _ _ => "participants-update"
  | .roomMeta _ _ => "room-meta"
  | .roomLock _ => "room-lock"
  | .participantLeft _ _ => "participant-left"

/-- The list built at lines 99/183/248/288/324: info for every approved
entry, in insertion order. -/
def participantsList (room : Room) : List PInfo :=
  (room.filter (fun e => isApproved e.2)).map (fun e => mkParticipantInfo e.1 e.2)

/-- `next((cid for cid, rec in room.items() if rec.get("is_host")), None)`. -/
def hostIdOf (room : Room) : Option String :=
  (room.find? (fun e => isHost e.2)).map Prod.fst

/-- A fan-out loop `for cid, rec in list(room.items()): if keep: safe_send(rec["ws"], p) for p in payloads`.
`guarded = true` models a per-iteration `try/except` around the body
(lines 90-95, 115-121, 200-206, 212-217, 234-239): a missing `"ws"` key
is swallowed there.  With `guarded = false` (all other loops) the
`rec["ws"]` lookup on an entry without a `ws` key raises `KeyError`,
which aborts the loop (sends made so far stand) and escapes the
handler. -/
def sendEach (guarded : Bool) (entries : List (String × Rec))
    (keep : String × Rec → Bool) (payloads : List Out) :
    List (Nat × Out) × Option String :=
  match entries with
  | [] => ([], none)
  | e :: es =>
    if keep e then
      match e.2.ws with
      | some w =>
        let r := sendEach guarded es keep payloads
        (payloads.map (fun p => (w, p)) ++ r.1, r.2)
      | none =>
        if guarded then sendEach guarded es keep payloads
        else ([], some "KeyError: ws")
    else sendEach guarded es keep payloads

/-- Sequencing of two send phases: an exception in the first aborts the
second. -/
def seqSends (a b : List (Nat × Out) × Option String) :
    List (Nat × Out) × Option String :=
  match a.2 with
  | some e => (a.1, some e)
  | none => (a.1 ++ b.1, b.2)

/-- `safe_send(room[k]["ws"], p)`: a single send to a looked-up entry;
`KeyError` when the entry has no `ws` key (or the key is absent). -/
def sendTo (room : Room) (k : String) (p : Out) :
    List (Nat × Out) × Option String :=
  match (dictGet room k).bind (fun r => r.ws) with
  | some w => ([(w, p)], none)
  | none => ([], some "KeyError: ws")

/-- Result of running one handler section: the new global state, the
sends made (in order), the websockets closed by the server, and an
uncaught exception if one escaped. -/
structure HRes where
  rooms : Rooms
  sends : List (Nat × Out) := []
  closes : List Nat := []
  err : Option String := none
deriving Repr, DecidableEq

/-- The record inserted at line 39 when a connection is accepted. -/
def connectRec (w : Nat) : Rec :=
  { ws := some w, displayName := some "", is_host := some false, is_approved := some true }

/-- Lines 32-39: accept the connection, create the room if absent,
insert the provisional participant record. -/
def handleConnect (st : Rooms) (roomId cid : String) (w : Nat) : Rooms :=
  let room := (dictGet st roomId).getD []
  dictSet st roomId (dictSet room cid (connectRec w))

/-- Lines 82-96: the Pending-entry notifications: `waiting` to the
joiner, then a guarded `join-request` to every host. -/
def notifyPending (stNew : Rooms) (room2 : Room) (cid display_name : String) (w : Nat) : HRes :=
  let s := seqSends ([(w, Out.waiting)], none)
    (sendEach true room2 (fun e => isHost e.2) [Out.joinRequest cid display_name])
  { rooms := stNew, sends := s.1, err := s.2 }

/-- Lines 97-121: the Approved-entry notifications: `welcome` to the
joiner, `participant-joined` to the other approved participants, then a
guarded `need-offer` to each of them. -/
def notifyApproved (stNew : Rooms) (room2 : Room) (cid : String) (w : Nat) : HRes :=
  let participants := participantsList room2
  let host_id := hostIdOf room2
  let selfInfo := mkParticipantInfo cid ((dictGet room2 cid).getD {})
  let s := seqSends ([(w, Out.welcome cid participants host_id)], none)
    (seqSends
      (sendEach false room2 (fun e => e.1 != cid && isApproved e.2)
        [Out.participantJoined selfInfo])
      (sendEach true room2 (fun e => e.1 != cid && isApproved e.2)
        [Out.needOffer cid]))
  { rooms := stNew, sends := s.1, err := s.2 }

/-- Lines 45-121: process the first message of a connection (the join
handshake).  `w` is the handler's own `websocket` variable. -/
def handleFirst (st : Rooms) (roomId cid : String) (w : Nat) (m : Msg) : HRes :=
  let room0 := (dictGet st roomId).getD []
  if m.type ≠ some "join" then
    { rooms := dictSet st roomId (dictErase room0 cid),
      sends := [(w, Out.errorMsg
        "Expected initial join message with type=\x27join\x27 and displayName")],
      closes := [w] }
  else
    let display_name := m.displayName.getD ("User-" ++ cid)
    let room1 := dictModify room0 cid (fun r => { r with displayName := some display_name })
    let require_approval := truthy ((dictGet room1 "_meta").bind (fun r => r.require_approval))
    let existing_hosts := (room1.filter (fun e => isHost e.2)).map Prod.fst
    let room2 :=
      if existing_hosts.isEmpty then
        dictModify room1 cid (fun r => { r with is_host := some true, is_approved := some true })
      else if require_approval then
        dictModify room1 cid (fun r => { r with is_approved := some false })
      else
        dictModify room1 cid (fun r => { r with is_approved := some true })
    let stNew := dictSet st roomId room2
    if ¬ truthy ((dictGet room2 cid).bind (fun r => r.is_approved)) then
      notifyPending stNew room2 cid display_name w
    else
      notifyApproved stNew room2 cid w

/-- The list at line 171. -/
def privilegedActions : List String :=
  ["mute", "kick", "make-host", "lock-room", "unlock-room", "accept", "reject", "set-approval"]

/-- `room.setdefault("_meta", {})` followed by a field assignment
(lines 258, 263, 271). -/
def metaSet (room : Room) (f : Rec → Rec) : Room :=
  if dictMem room "_meta" then dictModify room "_meta" f
  else room ++ [("_meta", f {})]

/-- Lines 178-207: the `accept` action with a truthy target `t`. -/
def actionAccept (st : Rooms) (roomId : String) (room : Room) (t : String) : HRes :=
  if dictMem room t ∧ ¬ isApproved ((dictGet room t).getD {}) then
    let room1 := dictModify room t (fun r => { r with is_approved := some true })
    let participants := participantsList room1
    let host_id := hostIdOf room1
    let joinInfo := mkParticipantInfo t ((dictGet room1 t).getD {})
    let s := seqSends (sendTo room1 t (Out.welcome t participants host_id))
      (seqSends
        (sendEach false room1 (fun e => e.1 != t && isApproved e.2)
          [Out.participantJoined joinInfo])
        (seqSends
          (sendEach false room1 (fun e => isApproved e.2)
            [Out.participantsUpdate participants host_id])
          (sendEach true room1 (fun e => e.1 != t && isApproved e.2)
            [Out.needOffer t])))
    { rooms := dictSet st roomId room1, sends := s.1, err := s.2 }
  else { rooms := st }

/-- Lines 209-218: the `reject` action with a truthy target `t` (the
send and close sit inside one `try/except`, so a broken target entry is
swallowed). -/
def actionReject (st : Rooms) (cid : String) (room : Room) (t : String) : HRes :=
  if dictMem room t ∧ ¬ isApproved ((dictGet room t).getD {}) then
    match (dictGet room t).bind (fun r => r.ws) with
    | some tw =>
      { rooms := st, sends := [(tw, Out.command "you-are-rejected" cid)], closes := [tw] }
    | none => { rooms := st }
  else { rooms := st }

/-- Lines 220-229: the `mute` action with a truthy target `t` (the
first send is not guarded by a `try`). -/
def actionMute (st : Rooms) (cid : String) (room : Room) (actorRec : Rec) (t : String) : HRes :=
  if dictMem room t then
    match (dictGet room t).bind (fun r => r.ws) with
    | none => { rooms := st, err := some "KeyError: ws" }
    | some tw =>
      let notif := Out.system ((actorRec.displayName.getD "") ++ " asked " ++
        (((dictGet room t).getD {}).displayName.getD "") ++ " to mute")
      let s := sendEach false room (fun e => isApproved e.2) [notif]
      { rooms := st, sends := (tw, Out.command "force-mute" cid) :: s.1, err := s.2 }
  else { rooms := st }

/-- Lines 231-240: the `kick` action with a truthy target `t`. -/
def actionKick (st : Rooms) (cid : String) (room : Room) (t : String) : HRes :=
  if dictMem room t then
    match (dictGet room t).bind (fun r => r.ws) with
    | some tw =>
      { rooms := st, sends := [(tw, Out.command "you-are-kicked" cid)], closes := [tw] }
    | none => { rooms := st }
  else { rooms := st }

/-- Lines 242-254: the `make-host` action with a truthy target `t`:
clear `is_host` on every entry (the `"_meta"` entry included), then set
it on the target. -/
def actionMakeHost (st : Rooms) (roomId : String) (room : Room) (t : String) : HRes :=
  if dictMem room t then
    let room1 := room.map (fun e => (e.1, { e.2 with is_host := some false }))
    let room2 := dictModify room1 t (fun r => { r with is_host := some true })
    let participants := participantsList room2
    let s := sendEach false room2 (fun e => isApproved e.2)
      [Out.participantsUpdate participants (some t)]
    { rooms := dictSet st roomId room2, sends := s.1, err := s.2 }
  else { rooms := st }

/-- Lines 256-266: `lock-room` / `unlock-room`: set the flag on the
`"_meta"` entry (creating it on demand), then broadcast `room-lock` to
every entry of the room dict — including `"_meta"` itself, whose missing
`ws` key raises an uncaught `KeyError`. -/
def actionLockRoom (st : Rooms) (roomId : String) (room : Room) (b : Bool) : HRes :=
  let room1 := metaSet room (fun r => { r with locked := some b })
  let s := sendEach false room1 (fun _ => true) [Out.roomLock b]
  { rooms := dictSet st roomId room1, sends := s.1, err := s.2 }

/-- Lines 268-277: `set-approval`. -/
def actionSetApproval (st : Rooms) (roomId : String) (room : Room) (v : Bool) : HRes :=
  let room1 := metaSet room (fun r => { r with require_approval := some v })
  let metaRec := (dictGet room1 "_meta").getD {}
  let s := sendEach false room1 (fun e => isApproved e.2)
    [Out.roomMeta metaRec.require_approval metaRec.locked]
  { rooms := dictSet st roomId room1, sends := s.1, err := s.2 }

/-- Lines 162-282: the `action` branch of the main loop.  `room` is the
current room dict, `m` the message after the `from` setdefault.  The
branch order and the truthiness tests on `target` mirror the source; an
action name that matches no branch (including a privileged name whose
`target` is falsy) falls through to the final `Unknown action` error. -/
def handleAction (st : Rooms) (roomId cid : String) (w : Nat) (room : Room) (m : Msg) : HRes :=
  let action := m.action
  let target := m.target
  match dictGet room cid with
  | none => { rooms := st }
  | some actorRec =>
    if (action.map (fun a => privilegedActions.contains a)).getD false ∧ ¬ isHost actorRec then
      { rooms := st, sends := [(w, Out.errorMsg "Only host may perform this action")] }
    else if action = some "accept" ∧ truthyStr target then
      actionAccept st roomId room (target.getD "")
    else if action = some "reject" ∧ truthyStr target then
      actionReject st cid room (target.getD "")
    else if action = some "mute" ∧ truthyStr target then
      actionMute st cid room actorRec (target.getD "")
    else if action = some "kick" ∧ truthyStr target then
      actionKick st cid room (target.getD "")
    else if action = some "make-host" ∧ truthyStr target then
      actionMakeHost st roomId room (target.getD "")
    else if action = some "lock-room" then
      actionLockRoom st roomId room true
    else if action = some "unlock-room" then
      actionLockRoom st roomId room false
    else if action = some "set-approval" then
      actionSetApproval st roomId room (m.value.getD false)
    else
      { rooms := st, sends := [(w, Out.errorMsg ("Unknown action " ++ action.getD "None"))] }

/-- Lines 124-300: one iteration of the main receive loop with an
already-parsed message `m0`.  (An unparsable text is a `continue` and
produces no event at all.) -/
def handleMain (st : Rooms) (roomId cid : String) (w : Nat) (m0 : Msg) : HRes :=
  let room := (dictGet st roomId).getD []
  let m : Msg := { m0 with msgFrom := some (m0.msgFrom.getD cid) }
  let mtype := m.type
  if mtype = some "offer" ∨ mtype = some "answer" ∨ mtype = some "ice-candidate" then
    match m.toId with
    | some t =>
      if t ≠ "" ∧ dictMem room t then
        if isApproved ((dictGet room t).getD {}) then
          let s := sendTo room t (Out.forwarded m)
          { rooms := st, sends := s.1, err := s.2 }
        else
          { rooms := st, sends := [(w, Out.errorMsg ("target " ++ t ++ " not approved yet"))] }
      else
        { rooms := st, sends := [(w, Out.errorMsg ("target " ++ t ++ " not in room"))] }
    | none =>
      { rooms := st, sends := [(w, Out.errorMsg "target None not in room")] }
  else if mtype = some "chat" then
    let s := sendEach false room (fun e => e.1 != cid && isApproved e.2)
      [Out.chat cid (m.text.getD "")]
    { rooms := st, sends := s.1, err := s.2 }
  else if mtype = some "action" then
    handleAction st roomId cid w room m
  else if mtype = some "update-name" then
    let newname := m.displayName.getD ""
    let room1 := dictModify room cid (fun r => { r with displayName := some newname })
    let participants := participantsList room1
    let host_id := hostIdOf room1
    let s := sendEach false room1 (fun e => isApproved e.2)
      [Out.participantsUpdate participants host_id]
    { rooms := dictSet st roomId room1, sends := s.1, err := s.2 }
  else
    let s := sendEach false room (fun e => e.1 != cid && isApproved e.2) [Out.forwarded m]
    { rooms := st, sends := s.1, err := s.2 }

/-- Line 313-318: the first approved entry, in insertion order. -/
def firstApproved (room : Room) : Option String :=
  (room.find? (fun e => isApproved e.2)).map Prod.fst

/-- Lines 313-321: promote the first approved entry (if any) to host. -/
def promote (room : Room) : Room :=
  match firstApproved room with
  | some k => dictModify room k (fun r => { r with is_host := some true })
  | none => room

/-- Lines 302-333: the `WebSocketDisconnect` cleanup. -/
def handleDisconnect (st : Rooms) (roomId cid : String) : HRes :=
  match dictGet st roomId with
  | none => { rooms := st }
  | some room =>
    if dictMem room cid then
      let rec0 := (dictGet room cid).getD {}
      let leftDisplay := rec0.displayName.getD cid
      let wasHost := isHost rec0
      let room1 := dictErase room cid
      let room2 := if wasHost ∧ ¬ room1.isEmpty then promote room1 else room1
      let participants := participantsList room2
      let host_id := hostIdOf room2
      let s := sendEach false room2 (fun e => isApproved e.2)
        [Out.participantLeft cid leftDisplay,
         Out.participantsUpdate participants host_id]
      let st1 := dictSet st roomId room2
      match s.2 with
      | some e => { rooms := st1, sends := s.1, err := some e }
      | none =>
        { rooms := if room2.isEmpty then dictErase st1 roomId else st1, sends := s.1 }
    else
      if room.isEmpty then { rooms := dictErase st roomId } else { rooms := st }

/-- The externally visible events driving the per-connection handler. -/
inductive Event where
  | connect (roomId cid : String) (w : Nat)
  | firstMsg (roomId cid : String) (w : Nat) (m : Msg)
  | mainMsg (roomId cid : String) (w : Nat) (m : Msg)
  | disconnect (roomId cid : String)
deriving Repr, DecidableEq

/-- Where a connection task currently is in `websocket_endpoint`. -/
inductive Stage
  | awaitingJoin
  | inLoop
deriving Repr, DecidableEq

/-- A live connection task. -/
structure Conn where
  cid : String
  roomId : String
  w : Nat
  stage : Stage
deriving Repr, DecidableEq

/-- The whole process: the `rooms` dict plus the set of live connection
tasks and the client ids ever generated (uuids are never reused). -/
structure Sys where
  rooms : Rooms := []
  conns : List Conn := []
  used : List String := []
deriving Repr, DecidableEq

def findConn (cs : List Conn) (cid : String) : Option Conn :=
  cs.find? (fun c => c.cid == cid)

def removeConn (cs : List Conn) (cid : String) : List Conn :=
  cs.filter (fun c => c.cid != cid)

def setStage (cs : List Conn) (cid : String) (s : Stage) : List Conn :=
  cs.map (fun c => if c.cid == cid then { c with stage := s } else c)

/-- One event of the system.  `none` marks an event the server could not
actually produce (a message from a task that does not exist or is in the
wrong phase, a reused client id, a client id colliding with `"_meta"` —
ids are 8-char uuid hex).  After an uncaught exception the task is dead
and its disconnect cleanup never runs. -/
def stepSys (sys : Sys) (ev : Event) : Option (Sys × HRes) :=
  match ev with
  | .connect roomId cid w =>
    if cid = "_meta" ∨ sys.used.contains cid ∨ sys.conns.any (fun c => c.w == w) then none
    else
      let rooms1 := handleConnect sys.rooms roomId cid w
      some ({ rooms := rooms1,
              conns := { cid := cid, roomId := roomId, w := w, stage := .awaitingJoin } :: sys.conns,
              used := cid :: sys.used },
            { rooms := rooms1 })
  | .firstMsg roomId cid w m =>
    match findConn sys.conns cid with
    | some c =>
      if c.roomId = roomId ∧ c.w = w ∧ c.stage = .awaitingJoin then
        let h := handleFirst sys.rooms roomId cid w m
        let conns1 :=
          if h.err.isSome ∨ m.type ≠ some "join" then removeConn sys.conns cid
          else setStage sys.conns cid .inLoop
        some ({ sys with rooms := h.rooms, conns := conns1 }, h)
      else none
    | none => none
  | .mainMsg roomId cid w m =>
    match findConn sys.conns cid with
    | some c =>
      if c.roomId = roomId ∧ c.w = w ∧ c.stage = .inLoop then
        let h := handleMain sys.rooms roomId cid w m
        let conns1 := if h.err.isSome then removeConn sys.conns cid else sys.conns
        some ({ sys with rooms := h.rooms, conns := conns1 }, h)
      else none
    | none => none
  | .disconnect roomId cid =>
    match findConn sys.conns cid with
    | some c =>
      if c.roomId = roomId then
        let h := handleDisconnect sys.rooms roomId cid
        some ({ sys with rooms := h.rooms, conns := removeConn sys.conns cid }, h)
      else none
    | none => none

/-- Run a sequence of events from a state; `none` if any event is not
producible. -/
def runSys (sys : Sys) : List Event → Option Sys
  | [] => some sys
  | ev :: evs =>
    match stepSys sys ev with
    | some (sys1, _) => runSys sys1 evs
    | none => none

/-- Run a prefix, then step one more event and expose its `HRes`. -/
def runThen (sys : Sys) (evs : List Event) (ev : Event) : Option (Sys × HRes) :=
  match runSys sys evs with
  | some s => stepSys s ev
  | none => none

/-- An entry that counts as "a participant with isHost=true": any
non-`"_meta"` binding whose record has `is_host` set. -/
def hostPred (e : String × Rec) : Bool := e.1 != "_meta" && isHost e.2

/-- Number of participants (non-`"_meta"` entries) of a room that
currently have `is_host` set. -/
def hostCount (room : Room) : Nat := (room.filter hostPred).length

/-- Number of participants (non-`"_meta"` entries) of a room. -/
def participantCount (room : Room) : Nat :=
  (room.filter (fun e => e.1 != "_meta")).length

/-- A join message carrying a display name. -/
def joinMsg (n : String) : Msg := { type := some "join", displayName := some n }

/-- `action=set-approval value=true` from a client. -/
def setApprovalMsg : Msg :=
  { type := some "action", action := some "set-approval", value := some true }

/-- Scenario for C1/C3/C4: Alice creates room `"r"` (becoming host),
turns on join approval, Bob connects. -/
def approvalRoomPre : List Event :=
  [ .connect "r" "alice" 1,
    .firstMsg "r" "alice" 1 (joinMsg "Alice"),
    .mainMsg "r" "alice" 1 setApprovalMsg,
    .connect "r" "bob" 2 ]

/-- ... Bob then joins (entering Pending) and the host Alice
disconnects, leaving only pending Bob in the room. -/
def c1Trace : List Event :=
  approvalRoomPre ++
  [ .firstMsg "r" "bob" 2 (joinMsg "Bob"),
    .disconnect "r" "alice" ]

/-- Two-member room: Alice (host) and Bob, both approved, no approval
policy. -/
def twoMemberPre : List Event :=
  [ .connect "r" "alice" 1,
    .firstMsg "r" "alice" 1 (joinMsg "Alice"),
    .connect "r" "bob" 2,
    .firstMsg "r" "bob" 2 (joinMsg "Bob") ]

/-- Scenario for C3: Alice creates the room, flips `set-approval` on
(which inserts the `"_meta"` entry), and disconnects as its last
participant. -/
def c3Trace : List Event :=
  [ .connect "r" "alice" 1,
    .firstMsg "r" "alice" 1 (joinMsg "Alice"),
    .mainMsg "r" "alice" 1 setApprovalMsg,
    .disconnect "r" "alice" ]

/-- ... afterwards Bob and Carol connect to the same room id. -/
def c3TraceExtended : List Event :=
  c3Trace ++
  [ .connect "r" "bob" 2,
    .firstMsg "r" "bob" 2 (joinMsg "Bob"),
    .connect "r" "carol" 3,
    .firstMsg "r" "carol" 3 (joinMsg "Carol") ]

/-- Structural sanity of one room dict: keys are unique (it is a dict)
and at most one participant is flagged host. -/
def RoomWF (room : Room) : Prop :=
  (room.map Prod.fst).Nodup ∧ hostCount room ≤ 1

/-- System invariant: every room is well formed and every live
connection task carries a uuid-generated client id (in particular never
the literal `"_meta"`). -/
def SysWF (sys : Sys) : Prop :=
  (∀ r ∈ sys.rooms, RoomWF r.2) ∧ (∀ c ∈ sys.conns, c.cid ≠ "_meta")

/-! ### Dictionary lemmas -/

theorem dictGet_cons (e : String × α) (es : List (String × α)) (k : String) :
    dictGet (e :: es) k = if e.1 == k then some e.2 else dictGet es k := by
  cases h : e.1 == k <;> simp [dictGet, List.find?, h]

theorem dictGet_dictSet_self (d : List (String × α)) (k : String) (v : α) :
    dictGet (dictSet d k v) k = some v := by
  induction d with
  | nil => simp [dictSet, dictGet, List.find?]
  | cons e es ih =>
    by_cases h : e.1 = k
    · simp [dictSet, h, dictGet_cons]
    · have hb : (e.1 == k) = false := by simp [h]
      simp [dictSet, hb, dictGet_cons, ih]

theorem dictGet_dictSet_ne (d : List (String × α)) (k k' : String) (v : α)
    (h : k' ≠ k) : dictGet (dictSet d k v) k' = dictGet d k' := by
  induction d with
  | nil => simp [dictSet, dictGet_cons, (by simp [h.symm] : (k == k') = false), dictGet]
  | cons e es ih =>
    by_cases he : e.1 = k
    · simp [dictSet, he, dictGet_cons, (by simp [h.symm] : (k == k') = false)]
    · have hb : (e.1 == k) = false := by simp [he]
      simp [dictSet, hb, dictGet_cons, ih]

theorem dictGet_dictModify_self (d : List (String × α)) (k : String) (f : α → α) :
    dictGet (dictModify d k f) k = (dictGet d k).map f := by
  induction d with
  | nil => simp [dictModify, dictGet]
  | cons e es ih =>
    by_cases he : e.1 = k
    · have hb : (e.1 == k) = true := by simp [he]
      simp [dictModify, hb, dictGet_cons]
    · have hb : (e.1 == k) = false := by simp [he]
      simp [dictModify, hb, dictGet_cons, ih]

theorem dictGet_dictModify_ne (d : List (String × α)) (k k' : String) (f : α → α)
    (h : k' ≠ k) : dictGet (dictModify d k f) k' = dictGet d k' := by
  induction d with
  | nil => simp [dictModify]
  | cons e es ih =>
    by_cases he : e.1 = k
    · have hb : (e.1 == k) = true := by simp [he]
      have hb' : (e.1 == k') = false := by simp [he, Ne.symm h]
      simp [dictModify, hb, dictGet_cons, hb']
    · have hb : (e.1 == k) = false := by simp [he]
      simp [dictModify, hb, dictGet_cons, ih]

theorem dictGet_dictErase_self (d : List (String × α)) (k : String) :
    dictGet (dictErase d k) k = none := by
  induction d with
  | nil => simp [dictErase, dictGet]
  | cons e es ih =>
    by_cases he : e.1 = k
    · simpa [dictErase, he] using ih
    · have hb : (e.1 != k) = true := by simp [he]
      have hb' : (e.1 == k) = false := by simp [he]
      simp only [dictErase, List.filter] at ih ⊢
      simp [hb, dictGet_cons, hb', ih]

theorem dictGet_dictErase_ne (d : List (String × α)) (k k' : String)
    (h : k' ≠ k) : dictGet (dictErase d k) k' = dictGet d k' := by
  induction d with
  | nil => simp [dictErase]
  | cons e es ih =>
    by_cases he : e.1 = k
    · have : (e.1 != k) = false := by simp [he]
      have hb' : (e.1 == k') = false := by simp [he, Ne.symm h]
      simp only [dictErase, List.filter] at ih ⊢
      simp [this, dictGet_cons, hb', ih]
    · have : (e.1 != k) = true := by simp [he]
      simp only [dictErase, List.filter] at ih ⊢
      simp [this, dictGet_cons, ih]

theorem mem_dictSet (d : List (String × α)) (k : String) (v : α) (e : String × α)
    (h : e ∈ dictSet d k v) : e ∈ d ∨ e = (k, v) := by
  induction d with
  | nil =>
    simp only [dictSet, List.mem_singleton] at h
    right; exact h
  | cons e' es ih =>
    cases hb : e'.1 == k with
    | true =>
      rw [dictSet, if_pos hb] at h
      rcases List.mem_cons.1 h with h | h
      · right; exact h
      · left; exact List.mem_cons_of_mem _ h
    | false =>
      rw [dictSet, if_neg (by simp [hb])] at h
      rcases List.mem_cons.1 h with h | h
      · left; rw [h]; exact List.mem_cons_self _ _
      · rcases ih h with h' | h'
        · left; exact List.mem_cons_of_mem _ h'
        · right; exact h'

theorem mem_dictErase (d : List (String × α)) (k : String) (e : String × α)
    (h : e ∈ dictErase d k) : e ∈ d :=
  List.mem_of_mem_filter h

theorem mem_dictModify (d : List (String × α)) (k : String) (f : α → α) (e' : String × α)
    (h : e' ∈ dictModify d k f) : e' ∈ d ∨ ∃ e, e ∈ d ∧ e.1 = k ∧ e' = (e.1, f e.2) := by
  induction d with
  | nil => simp [dictModify] at h
  | cons e es ih =>
    cases hb : e.1 == k with
    | true =>
      rw [dictModify, if_pos hb] at h
      rcases List.mem_cons.1 h with h | h
      · right; exact ⟨e, List.mem_cons_self _ _, by simpa using hb, h⟩
      · left; exact List.mem_cons_of_mem _ h
    | false =>
      rw [dictModify, if_neg (by simp [hb])] at h
      rcases List.mem_cons.1 h with h | h
      · left; rw [h]; exact List.mem_cons_self _ _
      · rcases ih h with h' | ⟨e0, he0, hk0, heq⟩
        · left; exact List.mem_cons_of_mem _ h'
        · right; exact ⟨e0, List.mem_cons_of_mem _ he0, hk0, heq⟩

theorem dictModify_keys (d : List (String × α)) (k : String) (f : α → α) :
    (dictModify d k f).map Prod.fst = d.map Prod.fst := by
  induction d with
  | nil => simp [dictModify]
  | cons e es ih =>
    cases hb : e.1 == k with
    | true => rw [dictModify, if_pos hb]; simp
    | false => rw [dictModify, if_neg (by simp [hb])]; simp [ih]

theorem keys_dictSet_mem (d : List (String × α)) (k : String) (v : α) (x : String)
    (h : x ∈ (dictSet d k v).map Prod.fst) : x ∈ d.map Prod.fst ∨ x = k := by
  simp only [List.mem_map] at h
  rcases h with ⟨e, he, hx⟩
  rcases mem_dictSet d k v e he with h' | h'
  · left; rw [← hx]; exact List.mem_map_of_mem _ h'
  · right; rw [h'] at hx; exact hx.symm

theorem dictMem_false_not_mem (d : List (String × α)) (k : String)
    (h : dictMem d k = false) : k ∉ d.map Prod.fst := by
  intro hk
  simp only [List.mem_map] at hk
  rcases hk with ⟨e, he, hk⟩
  have : d.any (fun e => e.1 == k) = true :=
    List.any_eq_true.2 ⟨e, he, by simp [hk]⟩
  rw [dictMem] at h
  rw [h] at this
  exact Bool.false_ne_true this

theorem dictSet_keys_nodup (d : List (String × α)) (k : String) (v : α)
    (h : (d.map Prod.fst).Nodup) : ((dictSet d k v).map Prod.fst).Nodup := by
  induction d with
  | nil => simp [dictSet]
  | cons e es ih =>
    simp only [List.map_cons, List.nodup_cons] at h
    cases hb : e.1 == k with
    | true =>
      rw [dictSet, if_pos hb]
      simp only [List.map_cons, List.nodup_cons]
      have he : e.1 = k := by simpa using hb
      exact ⟨he ▸ h.1, h.2⟩
    | false =>
      rw [dictSet, if_neg (by simp [hb])]
      simp only [List.map_cons, List.nodup_cons]
      refine ⟨fun hx => ?_, ih h.2⟩
      rcases keys_dictSet_mem es k v e.1 hx with h' | h'
      · exact h.1 h'
      · rw [h'] at hb; simp at hb

theorem dictErase_keys_nodup (d : List (String × α)) (k : String)
    (h : (d.map Prod.fst).Nodup) : ((dictErase d k).map Prod.fst).Nodup :=
  h.sublist ((List.filter_sublist d).map Prod.fst)

theorem dictGet_mem (d : List (String × α)) (k : String) (v : α)
    (h : dictGet d k = some v) : (k, v) ∈ d := by
  induction d with
  | nil => simp [dictGet] at h
  | cons e es ih =>
    rw [dictGet_cons] at h
    cases hb : e.1 == k with
    | true =>
      rw [if_pos hb] at h
      have he : e = (k, v) := by
        have h1 : e.1 = k := by simpa using hb
        have h2 : e.2 = v := by simpa using h
        cases e; simp_all
      rw [← he]; exact List.mem_cons_self _ _
    | false =>
      rw [if_neg (by simp [hb])] at h
      exact List.mem_cons_of_mem _ (ih h)

theorem dictMem_true_iff (d : List (String × α)) (k : String) :
    dictMem d k = true ↔ ∃ v, dictGet d k = some v := by
  induction d with
  | nil => simp [dictMem, dictGet]
  | cons e es ih =>
    rw [dictGet_cons]
    cases hb : e.1 == k with
    | true => simp [dictMem, List.any_cons, hb]
    | false =>
      simp only [if_neg (by simp : ¬ (false = true))]
      simp only [dictMem, List.any_cons, hb, Bool.false_or]
      exact ih

theorem dictMem_eq_false_iff (d : List (String × α)) (k : String) :
    dictMem d k = false ↔ dictGet d k = none := by
  constructor
  · intro h
    cases hg : dictGet d k with
    | none => rfl
    | some v =>
      have := (dictMem_true_iff d k).2 ⟨v, hg⟩
      rw [h] at this
      exact absurd this Bool.false_ne_true
  · intro h
    cases hm : dictMem d k with
    | false => rfl
    | true =>
      rcases (dictMem_true_iff d k).1 hm with ⟨v, hv⟩
      rw [h] at hv
      exact absurd hv (by simp)

/-! ### `find?` and fan-out lemmas -/

theorem find?_split (p : α → Bool) (l : List α) (a : α) (h : l.find? p = some a) :
    ∃ l1 l2, l = l1 ++ a :: l2 ∧ (∀ x ∈ l1, p x = false) ∧ p a = true := by
  induction l with
  | nil => simp at h
  | cons x xs ih =>
    cases hp : p x with
    | true =>
      rw [List.find?_cons_of_pos _ hp] at h
      refine ⟨[], xs, by simp [(Option.some_inj.1 h).symm], by simp, ?_⟩
      rw [← Option.some_inj.1 h]; exact hp
    | false =>
      rw [List.find?_cons_of_neg _ (by simp [hp])] at h
      rcases ih h with ⟨l1, l2, hsplit, hl1, ha⟩
      exact ⟨x :: l1, l2, by simp [hsplit], by
        intro y hy
        rcases List.mem_cons.1 hy with h' | h'
        · rw [h']; exact hp
        · exact hl1 y h', ha⟩

theorem sendEach_eq_of_ws (g : Bool) (entries : List (String × Rec))
    (keep : String × Rec → Bool) (ps : List Out)
    (h : ∀ e ∈ entries, keep e = true → e.2.ws.isSome) :
    sendEach g entries keep ps =
      ((entries.filter keep).flatMap (fun e => ps.map (fun p => (e.2.ws.getD 0, p))), none) := by
  induction entries with
  | nil => simp [sendEach]
  | cons e es ih =>
    have hes : ∀ e' ∈ es, keep e' = true → e'.2.ws.isSome :=
      fun e' he' => h e' (List.mem_cons_of_mem _ he')
    cases hk : keep e with
    | false => simp [sendEach, hk, ih hes, List.filter_cons, hk]
    | true =>
      have hws := h e (List.mem_cons_self _ _) hk
      cases hw : e.2.ws with
      | none => rw [hw] at hws; simp at hws
      | some w =>
        simp [sendEach, hk, hw, ih hes, List.filter_cons, hk]

theorem sendEach_payload (g : Bool) (entries : List (String × Rec))
    (keep : String × Rec → Bool) (ps : List Out) (w : Nat) (o : Out)
    (h : (w, o) ∈ (sendEach g entries keep ps).1) : o ∈ ps := by
  induction entries with
  | nil => simp [sendEach] at h
  | cons e es ih =>
    by_cases hk : keep e = true
    · cases hw : e.2.ws with
      | some w' =>
        simp only [sendEach, hk, if_true, hw, List.mem_append] at h
        rcases h with h | h
        · rcases List.mem_map.1 h with ⟨p, hp, hpe⟩
          cases hpe; exact hp
        · exact ih h
      | none =>
        simp only [sendEach, hk, if_true, hw] at h
        cases g with
        | true => simp only [if_true] at h; exact ih h
        | false => simp at h
    · have hk' : keep e = false := by simpa using hk
      simp only [sendEach, hk', Bool.false_eq_true, if_false] at h
      exact ih h

/-! ### Host-count lemmas -/

theorem hostCount_cons (e : String × Rec) (room : Room) :
    hostCount (e :: room) = (if hostPred e then 1 else 0) + hostCount room := by
  cases h : hostPred e <;> simp [hostCount, List.filter_cons, h, Nat.add_comm]

theorem hostPred_false_of_not_host (k : String) (v : Rec) (h : isHost v = false) :
    hostPred (k, v) = false := by
  simp [hostPred, h]

theorem hostCount_eq_zero_iff (room : Room) :
    hostCount room = 0 ↔ ∀ e ∈ room, hostPred e = false := by
  simp only [hostCount, List.length_eq_zero, List.filter_eq_nil_iff]
  constructor
  · intro h e he
    simpa using h e he
  · intro h e he
    simp [h e he]

theorem hostCount_dictSet_le (d : Room) (k : String) (v : Rec)
    (h : isHost v = false) : hostCount (dictSet d k v) ≤ hostCount d := by
  induction d with
  | nil =>
    simp [dictSet, hostCount_cons, hostPred_false_of_not_host k v h, hostCount]
  | cons e es ih =>
    cases hb : e.1 == k with
    | true =>
      rw [dictSet, if_pos hb, hostCount_cons, hostCount_cons]
      have : hostPred (k, v) = false := hostPred_false_of_not_host k v h
      simp [this]
    | false =>
      rw [dictSet, if_neg (by simp [hb]), hostCount_cons, hostCount_cons]
      exact Nat.add_le_add_left ih _

theorem hostCount_dictModify_le_one (d : Room) (k : String) (f : Rec → Rec)
    (h : ∀ e ∈ d, hostPred e = false) : hostCount (dictModify d k f) ≤ 1 := by
  induction d with
  | nil => simp [dictModify, hostCount]
  | cons e es ih =>
    have hes : ∀ e' ∈ es, hostPred e' = false := fun e' he' => h e' (List.mem_cons_of_mem _ he')
    cases hb : e.1 == k with
    | true =>
      rw [dictModify, if_pos hb, hostCount_cons]
      have hz : hostCount es = 0 := (hostCount_eq_zero_iff es).2 hes
      rw [hz]
      cases hp : hostPred (e.1, f e.2) <;> simp [hp]
    | false =>
      rw [dictModify, if_neg (by simp [hb]), hostCount_cons]
      rw [h e (List.mem_cons_self _ _)]
      simpa using ih hes

theorem hostCount_dictModify_preserve (d : Room) (k : String) (f : Rec → Rec)
    (h : ∀ r, isHost (f r) = isHost r) : hostCount (dictModify d k f) = hostCount d := by
  induction d with
  | nil => simp [dictModify]
  | cons e es ih =>
    cases hb : e.1 == k with
    | true =>
      rw [dictModify, if_pos hb, hostCount_cons, hostCount_cons]
      have : hostPred (e.1, f e.2) = hostPred e := by
        simp [hostPred, h e.2]
      rw [this]
    | false =>
      rw [dictModify, if_neg (by simp [hb]), hostCount_cons, hostCount_cons, ih]

theorem hostCount_dictErase_le (d : Room) (k : String) :
    hostCount (dictErase d k) ≤ hostCount d := by
  have hsub : List.Sublist ((dictErase d k).filter hostPred) (d.filter hostPred) :=
    (List.filter_sublist d).filter hostPred
  exact hsub.length_le

theorem hostCount_append_single (d : Room) (e : String × Rec) :
    hostCount (d ++ [e]) = hostCount d + (if hostPred e then 1 else 0) := by
  induction d with
  | nil =>
    rw [List.nil_append, hostCount_cons]
    simp [hostCount, Nat.add_comm]
  | cons e' es ih =>
    simp only [List.cons_append, hostCount_cons, ih]
    omega

theorem two_le_length_of_mem_ne (l : List β) (a b : β) (ha : a ∈ l) (hb : b ∈ l)
    (hne : a ≠ b) : 2 ≤ l.length := by
  match l with
  | [] => simp at ha
  | [x] =>
    rw [List.mem_singleton] at ha hb
    exact absurd (ha.trans hb.symm) hne
  | x :: y :: t =>
    simp only [List.length_cons]
    omega

theorem hostCount_erase_zero (d : Room) (k : String) (r : Rec)
    (hget : dictGet d k = some r) (hh : isHost r = true) (hk : k ≠ "_meta")
    (hle : hostCount d ≤ 1) : ∀ e ∈ dictErase d k, hostPred e = false := by
  intro e he
  by_contra hph
  have hpe : hostPred e = true := by simpa using hph
  have hed : e ∈ d := mem_dictErase d k e he
  have hek : (e.1 != k) = true := (List.mem_filter.1 he).2
  have hkr : (k, r) ∈ d := dictGet_mem d k r hget
  have hpkr : hostPred (k, r) = true := by simp [hostPred, hh, hk]
  have hne : e ≠ (k, r) := by
    intro hcontra
    rw [hcontra] at hek
    simp at hek
  have h1 : e ∈ d.filter hostPred := List.mem_filter.2 ⟨hed, hpe⟩
  have h2 : (k, r) ∈ d.filter hostPred := List.mem_filter.2 ⟨hkr, hpkr⟩
  have := two_le_length_of_mem_ne _ _ _ h1 h2 hne
  rw [hostCount] at hle
  omega

theorem map_clear_host_pred (room : Room) :
    ∀ e ∈ room.map (fun e => (e.1, { e.2 with is_host := some false })),
      hostPred e = false := by
  intro e he
  rcases List.mem_map.1 he with ⟨e0, _, heq⟩
  rw [← heq]
  simp [hostPred, isHost, truthy]

theorem map_clear_host_keys (room : Room) :
    (room.map (fun e => (e.1, { e.2 with is_host := some false }))).map Prod.fst =
      room.map Prod.fst := by
  rw [List.map_map]
  rfl

/-! ### Room well-formedness is preserved by every handler -/

theorem roomWF_nil : RoomWF [] :=
  ⟨List.nodup_nil, by simp [hostCount]⟩

theorem roomWF_getD (st : Rooms) (roomId : String)
    (h : ∀ r ∈ st, RoomWF r.2) : RoomWF ((dictGet st roomId).getD []) := by
  cases hg : dictGet st roomId with
  | none => exact roomWF_nil
  | some room =>
    have := h (roomId, room) (dictGet_mem st roomId room hg)
    simpa using this

theorem roomsWF_dictSet (st : Rooms) (roomId : String) (room : Room)
    (h : ∀ r ∈ st, RoomWF r.2) (hroom : RoomWF room) :
    ∀ r ∈ dictSet st roomId room, RoomWF r.2 := by
  intro r hr
  rcases mem_dictSet st roomId room r hr with h' | h'
  · exact h r h'
  · rw [h']; exact hroom

theorem roomsWF_dictErase (st : Rooms) (k : String)
    (h : ∀ r ∈ st, RoomWF r.2) : ∀ r ∈ dictErase st k, RoomWF r.2 :=
  fun r hr => h r (mem_dictErase st k r hr)

theorem roomWF_dictSet_nonhost (room : Room) (k : String) (v : Rec)
    (hwf : RoomWF room) (h : isHost v = false) : RoomWF (dictSet room k v) :=
  ⟨dictSet_keys_nodup room k v hwf.1,
   le_trans (hostCount_dictSet_le room k v h) hwf.2⟩

theorem roomWF_dictModify_preserve (room : Room) (k : String) (f : Rec → Rec)
    (hwf : RoomWF room) (h : ∀ r, isHost (f r) = isHost r) :
    RoomWF (dictModify room k f) := by
  refine ⟨?_, ?_⟩
  · rw [dictModify_keys]; exact hwf.1
  · rw [hostCount_dictModify_preserve room k f h]; exact hwf.2

theorem roomWF_dictModify_no_hosts (room : Room) (k : String) (f : Rec → Rec)
    (hwf : RoomWF room) (h : ∀ e ∈ room, hostPred e = false) :
    RoomWF (dictModify room k f) := by
  refine ⟨?_, hostCount_dictModify_le_one room k f h⟩
  rw [dictModify_keys]; exact hwf.1

theorem roomWF_dictErase (room : Room) (k : String) (hwf : RoomWF room) :
    RoomWF (dictErase room k) :=
  ⟨dictErase_keys_nodup room k hwf.1,
   le_trans (hostCount_dictErase_le room k) hwf.2⟩

theorem hostPred_meta (v : Rec) : hostPred ("_meta", v) = false := by
  simp [hostPred]

theorem roomWF_metaSet (room : Room) (f : Rec → Rec)
    (hwf : RoomWF room) (h : ∀ r, isHost (f r) = isHost r) :
    RoomWF (metaSet room f) := by
  rw [metaSet]
  cases hm : dictMem room "_meta" with
  | true =>
    simp only [if_pos rfl]
    exact roomWF_dictModify_preserve room "_meta" f hwf h
  | false =>
    simp only [Bool.false_eq_true, if_false]
    refine ⟨?_, ?_⟩
    · rw [List.map_append]
      rw [List.nodup_append]
      refine ⟨hwf.1, by simp, ?_⟩
      intro x hx
      simp only [List.map_cons, List.map_nil, List.mem_singleton]
      intro hx'
      rw [hx'] at hx
      exact dictMem_false_not_mem room "_meta" hm hx
    · rw [hostCount_append_single, hostPred_meta]
      simpa using hwf.2

theorem no_hosts_all_false (room : Room)
    (h : ((room.filter (fun e => isHost e.2)).map Prod.fst).isEmpty = true) :
    ∀ e ∈ room, hostPred e = false := by
  intro e he
  rw [List.isEmpty_iff, List.map_eq_nil_iff] at h
  have hh : ¬ isHost e.2 = true := by
    intro hh
    have : e ∈ room.filter (fun e => isHost e.2) := List.mem_filter.2 ⟨he, hh⟩
    rw [h] at this
    simp at this
  simp only [Bool.not_eq_true] at hh
  simp [hostPred, hh]

theorem handleConnect_WF (st : Rooms) (roomId cid : String) (w : Nat)
    (h : ∀ r ∈ st, RoomWF r.2) :
    ∀ r ∈ handleConnect st roomId cid w, RoomWF r.2 := by
  rw [handleConnect]
  exact roomsWF_dictSet st roomId _ h
    (roomWF_dictSet_nonhost _ cid (connectRec w) (roomWF_getD st roomId h) rfl)

theorem handleFirst_WF (st : Rooms) (roomId cid : String) (w : Nat) (m : Msg)
    (h : ∀ r ∈ st, RoomWF r.2) :
    ∀ r ∈ (handleFirst st roomId cid w m).rooms, RoomWF r.2 := by
  have hroom0 : RoomWF ((dictGet st roomId).getD []) := roomWF_getD st roomId h
  rw [handleFirst]
  split
  · exact roomsWF_dictSet st roomId _ h (roomWF_dictErase _ cid hroom0)
  · dsimp only
    have hroom1 : RoomWF (dictModify ((dictGet st roomId).getD []) cid
        (fun r => { r with displayName := some (m.displayName.getD ("User-" ++ cid)) })) :=
      roomWF_dictModify_preserve _ cid _ hroom0 (fun r => rfl)
    set room1 := dictModify ((dictGet st roomId).getD []) cid
        (fun r => { r with displayName := some (m.displayName.getD ("User-" ++ cid)) }) with hr1
    have hroom2 : RoomWF (if ((room1.filter (fun e => isHost e.2)).map Prod.fst).isEmpty then
        dictModify room1 cid (fun r => { r with is_host := some true, is_approved := some true })
      else if truthy ((dictGet room1 "_meta").bind (fun r => r.require_approval)) then
        dictModify room1 cid (fun r => { r with is_approved := some false })
      else
        dictModify room1 cid (fun r => { r with is_approved := some true })) := by
      split
      · next hempty =>
        exact roomWF_dictModify_no_hosts room1 cid _ hroom1 (no_hosts_all_false room1 hempty)
      · split
        · exact roomWF_dictModify_preserve room1 cid _ hroom1 (fun r => rfl)
        · exact roomWF_dictModify_preserve room1 cid _ hroom1 (fun r => rfl)
    intro r hr
    rw [apply_ite HRes.rooms] at hr
    rw [show ∀ a b c d e, (notifyPending a b c d e).rooms = a from fun _ _ _ _ _ => rfl,
        show ∀ a b c d, (notifyApproved a b c d).rooms = a from fun _ _ _ _ => rfl,
        ite_self] at hr
    exact roomsWF_dictSet st roomId _ h hroom2 r hr

theorem actionAccept_WF (st : Rooms) (roomId : String) (room : Room) (t : String)
    (h : ∀ r ∈ st, RoomWF r.2) (hroom : RoomWF room) :
    ∀ r ∈ (actionAccept st roomId room t).rooms, RoomWF r.2 := by
  rw [actionAccept]
  split
  · dsimp only
    exact roomsWF_dictSet st roomId _ h
      (roomWF_dictModify_preserve _ _ _ hroom (fun r => rfl))
  · exact h

theorem actionReject_WF (st : Rooms) (cid : String) (room : Room) (t : String)
    (h : ∀ r ∈ st, RoomWF r.2) :
    ∀ r ∈ (actionReject st cid room t).rooms, RoomWF r.2 := by
  rw [actionReject]
  repeat' split
  all_goals exact h

theorem actionMute_WF (st : Rooms) (cid : String) (room : Room) (actorRec : Rec) (t : String)
    (h : ∀ r ∈ st, RoomWF r.2) :
    ∀ r ∈ (actionMute st cid room actorRec t).rooms, RoomWF r.2 := by
  rw [actionMute]
  repeat' split
  all_goals exact h

theorem actionKick_WF (st : Rooms) (cid : String) (room : Room) (t : String)
    (h : ∀ r ∈ st, RoomWF r.2) :
    ∀ r ∈ (actionKick st cid room t).rooms, RoomWF r.2 := by
  rw [actionKick]
  repeat' split
  all_goals exact h

theorem actionMakeHost_WF (st : Rooms) (roomId : String) (room : Room) (t : String)
    (h : ∀ r ∈ st, RoomWF r.2) (hroom : RoomWF room) :
    ∀ r ∈ (actionMakeHost st roomId room t).rooms, RoomWF r.2 := by
  rw [actionMakeHost]
  split
  · dsimp only
    refine roomsWF_dictSet st roomId _ h ⟨?_, ?_⟩
    · rw [dictModify_keys, map_clear_host_keys]
      exact hroom.1
    · exact hostCount_dictModify_le_one _ _ _ (map_clear_host_pred room)
  · exact h

theorem actionLockRoom_WF (st : Rooms) (roomId : String) (room : Room) (b : Bool)
    (h : ∀ r ∈ st, RoomWF r.2) (hroom : RoomWF room) :
    ∀ r ∈ (actionLockRoom st roomId room b).rooms, RoomWF r.2 := by
  rw [actionLockRoom]
  exact roomsWF_dictSet st roomId _ h (roomWF_metaSet _ _ hroom (fun r => rfl))

theorem actionSetApproval_WF (st : Rooms) (roomId : String) (room : Room) (v : Bool)
    (h : ∀ r ∈ st, RoomWF r.2) (hroom : RoomWF room) :
    ∀ r ∈ (actionSetApproval st roomId room v).rooms, RoomWF r.2 := by
  rw [actionSetApproval]
  exact roomsWF_dictSet st roomId _ h (roomWF_metaSet _ _ hroom (fun r => rfl))

theorem handleAction_WF (st : Rooms) (roomId cid : String) (w : Nat) (room : Room) (m : Msg)
    (h : ∀ r ∈ st, RoomWF r.2) (hroom : RoomWF room) :
    ∀ r ∈ (handleAction st roomId cid w room m).rooms, RoomWF r.2 := by
  rw [handleAction]
  split
  · exact h
  · next actorRec hrec =>
    repeat' split
    all_goals
      first
        | exact h
        | exact actionAccept_WF st roomId room _ h hroom
        | exact actionReject_WF st cid room _ h
        | exact actionMute_WF st cid room actorRec _ h
        | exact actionKick_WF st cid room _ h
        | exact actionMakeHost_WF st roomId room _ h hroom
        | exact actionLockRoom_WF st roomId room _ h hroom
        | exact actionSetApproval_WF st roomId room _ h hroom

theorem handleMain_WF (st : Rooms) (roomId cid : String) (w : Nat) (m0 : Msg)
    (h : ∀ r ∈ st, RoomWF r.2) :
    ∀ r ∈ (handleMain st roomId cid w m0).rooms, RoomWF r.2 := by
  have hroom : RoomWF ((dictGet st roomId).getD []) := roomWF_getD st roomId h
  rw [handleMain]
  dsimp only
  repeat' split
  all_goals try dsimp only
  all_goals
    first
      | exact h
      | exact handleAction_WF st roomId cid w _ _ h hroom
      | exact roomsWF_dictSet st roomId _ h
          (roomWF_dictModify_preserve _ _ _ hroom (fun r => rfl))

theorem promote_WF (room : Room) (hwf : RoomWF room)
    (hall : ∀ e ∈ room, hostPred e = false) : RoomWF (promote room) := by
  rw [promote]
  split
  · exact roomWF_dictModify_no_hosts _ _ _ hwf hall
  · exact hwf

theorem handleDisconnect_WF (st : Rooms) (roomId cid : String)
    (h : ∀ r ∈ st, RoomWF r.2) (hcid : cid ≠ "_meta") :
    ∀ r ∈ (handleDisconnect st roomId cid).rooms, RoomWF r.2 := by
  rw [handleDisconnect]
  split
  · exact h
  · next room hget =>
    have hroom : RoomWF room := by
      simpa using h (roomId, room) (dictGet_mem st roomId room hget)
    split
    · next hmem =>
      dsimp only
      have hroom1 : RoomWF (dictErase room cid) := roomWF_dictErase room cid hroom
      have hpro : (isHost ((dictGet room cid).getD {}) = true ∧
          ¬(dictErase room cid).isEmpty = true) →
          RoomWF (promote (dictErase room cid)) := by
        intro hcond
        rcases (dictMem_true_iff room cid).1 hmem with ⟨rec0, hrec0⟩
        refine promote_WF _ hroom1 ?_
        refine hostCount_erase_zero room cid rec0 hrec0 ?_ hcid hroom.2
        have := hcond.1
        rw [hrec0] at this
        simpa using this
      repeat' split
      all_goals
        first
          | exact roomsWF_dictSet st roomId _ h (hpro (by assumption))
          | exact roomsWF_dictSet st roomId _ h hroom1
          | exact roomsWF_dictErase _ _ (roomsWF_dictSet st roomId _ h (hpro (by assumption)))
          | exact roomsWF_dictErase _ _ (roomsWF_dictSet st roomId _ h hroom1)
    · split
      · exact roomsWF_dictErase _ _ h
      · exact h

/-! ### System-level invariant -/

theorem findConn_mem_cid (cs : List Conn) (cid : String) (c : Conn)
    (h : findConn cs cid = some c) : c ∈ cs ∧ c.cid = cid := by
  refine ⟨List.mem_of_find?_eq_some h, ?_⟩
  have := List.find?_some h
  simpa using this

theorem removeConn_subset (cs : List Conn) (cid : String) (c : Conn)
    (h : c ∈ removeConn cs cid) : c ∈ cs :=
  List.mem_of_mem_filter h

theorem setStage_cid (cs : List Conn) (cid : String) (s : Stage) (c' : Conn)
    (h : c' ∈ setStage cs cid s) : ∃ c, c ∈ cs ∧ c'.cid = c.cid := by
  rcases List.mem_map.1 h with ⟨c, hc, heq⟩
  refine ⟨c, hc, ?_⟩
  rw [← heq]
  by_cases h' : (c.cid == cid) = true <;> simp [h']

theorem stepSys_WF (sys sys1 : Sys) (ev : Event) (res : HRes)
    (hstep : stepSys sys ev = some (sys1, res)) (hwf : SysWF sys) : SysWF sys1 := by
  cases ev with
  | connect roomId cid w =>
    rw [stepSys] at hstep
    split at hstep
    · exact absurd hstep (by simp)
    · next hguard =>
      rw [Option.some_inj] at hstep
      have hsys1 := congrArg Prod.fst hstep
      dsimp only at hsys1
      rw [← hsys1]
      refine ⟨handleConnect_WF sys.rooms roomId cid w hwf.1, ?_⟩
      intro c hc
      dsimp only at hc
      rcases List.mem_cons.1 hc with hc | hc
      · rw [hc]
        intro hcontra
        exact hguard (Or.inl hcontra)
      · exact hwf.2 c hc
  | firstMsg roomId cid w m =>
    rw [stepSys] at hstep
    split at hstep
    · next c hc =>
      split at hstep
      · rw [Option.some_inj] at hstep
        have hsys1 := congrArg Prod.fst hstep
        dsimp only at hsys1
        rw [← hsys1]
        refine ⟨handleFirst_WF sys.rooms roomId cid w m hwf.1, ?_⟩
        intro c' hc'
        dsimp only at hc'
        split at hc'
        · exact hwf.2 c' (removeConn_subset _ _ _ hc')
        · rcases setStage_cid _ _ _ _ hc' with ⟨c0, hc0, hcid0⟩
          rw [hcid0]
          exact hwf.2 c0 hc0
      · exact absurd hstep (by simp)
    · exact absurd hstep (by simp)
  | mainMsg roomId cid w m =>
    rw [stepSys] at hstep
    split at hstep
    · next c hc =>
      split at hstep
      · rw [Option.some_inj] at hstep
        have hsys1 := congrArg Prod.fst hstep
        dsimp only at hsys1
        rw [← hsys1]
        refine ⟨handleMain_WF sys.rooms roomId cid w m hwf.1, ?_⟩
        intro c' hc'
        dsimp only at hc'
        split at hc'
        · exact hwf.2 c' (removeConn_subset _ _ _ hc')
        · exact hwf.2 c' hc'
      · exact absurd hstep (by simp)
    · exact absurd hstep (by simp)
  | disconnect roomId cid =>
    rw [stepSys] at hstep
    split at hstep
    · next c hc =>
      split at hstep
      · rw [Option.some_inj] at hstep
        have hsys1 := congrArg Prod.fst hstep
        dsimp only at hsys1
        rw [← hsys1]
        have hcneq : cid ≠ "_meta" := by
          rcases findConn_mem_cid sys.conns cid c hc with ⟨hmem, hcid⟩
          rw [← hcid]
          exact hwf.2 c hmem
        refine ⟨handleDisconnect_WF sys.rooms roomId cid hwf.1 hcneq, ?_⟩
        intro c' hc'
        dsimp only at hc'
        exact hwf.2 c' (removeConn_subset _ _ _ hc')
      · exact absurd hstep (by simp)
    · exact absurd hstep (by simp)

theorem runSys_WF (evs : List Event) (sys sys1 : Sys)
    (h : runSys sys evs = some sys1) (hwf : SysWF sys) : SysWF sys1 := by
  induction evs generalizing sys with
  | nil =>
    rw [runSys, Option.some_inj] at h
    rw [← h]; exact hwf
  | cons ev evs ih =>
    rw [runSys] at h
    split at h
    · next sys' res hstep =>
      exact ih sys' h (stepSys_WF sys sys' ev res hstep hwf)
    · exact absurd h (by simp)

/-- Claim C1, counterexample: the claim says the number of hosts is 0
only when the room has no participants and that host promotion on
disconnect preserves this.  In the reachable trace `c1Trace` (host Alice
turns on join approval, Bob joins and is pending, Alice disconnects) the
promotion loop finds no approved participant, leaving a room with one
participant and zero hosts. -/
theorem c1_counterexample :
    ((runSys {} c1Trace).bind (fun s => dictGet s.rooms "r")).map
      (fun room => (hostCount room, participantCount room)) = some (0, 1) := by
  rfl

/-- Claim C1, amended: every operation keeps the number of participants
with `is_host` at 0 or 1, over every producible event sequence; but a
nonempty room can have zero hosts (see the counterexample), so the
"0 only when empty" half is dropped. -/
theorem c1_host_invariant_amended (evs : List Event) (sys : Sys)
    (h : runSys {} evs = some sys) : ∀ r ∈ sys.rooms, hostCount r.2 ≤ 1 := by
  have hwf : SysWF sys := runSys_WF evs {} sys h
    ⟨fun r hr => absurd hr (List.not_mem_nil r), fun c hc => absurd hc (List.not_mem_nil c)⟩
  exact fun r hr => (hwf.1 r hr).2

/-- Witness for the amended C1 theorem at a concrete trace: the
two-member room reached by `twoMemberPre` has at most one host. -/
theorem c1_host_invariant_amended_witness :
    hostCount ((dictGet ((runSys {} twoMemberPre).getD {}).rooms "r").getD []) ≤ 1 :=
  c1_host_invariant_amended twoMemberPre ((runSys {} twoMemberPre).getD {}) (by rfl)
    ("r", (dictGet ((runSys {} twoMemberPre).getD {}).rooms "r").getD []) (by decide)

/-- Claim C3, evaluation at the failing input: after `c3Trace` (Alice
creates room `"r"`, issues `set-approval true` — which inserts the
`"_meta"` entry into the room dict — and disconnects as the last
participant) the room is NOT removed from the directory: it survives
holding only the `"_meta"` entry with `require_approval=true`.  In the
extended trace Bob then joins the "same" room and Carol joins after him:
Carol is put in Pending by the leaked `require_approval`, although the
claim promises a brand-new room with `requireApproval=false`. -/
theorem c3_room_leak :
    ((runSys {} c3Trace).map (fun s => dictGet s.rooms "r") =
      some (some [("_meta", { require_approval := some true })]) ) ∧
    ((runSys {} c3TraceExtended).bind (fun s => dictGet s.rooms "r")).bind
      (fun room => (dictGet room "carol").map (fun r => r.is_approved)) =
      some (some false) := by
  constructor
  · rfl
  · rfl

/-- Claim C6, evaluation at the failing input: the sole participant
Alice (host of room `"r"`) sends `action=lock-room`.  The handler sets
`locked=true` on the `"_meta"` entry it just inserted and starts
broadcasting `room-lock`; the broadcast loop iterates the room dict,
reaches the `"_meta"` entry, and `rec["ws"]` raises an uncaught
`KeyError` — the coordinator task dies instead of completing.  Alice
(who precedes `"_meta"` in the dict) did receive the broadcast first. -/
theorem c6_lock_room_keyerror :
    (runThen {} [ .connect "r" "alice" 1, .firstMsg "r" "alice" 1 (joinMsg "Alice") ]
        (.mainMsg "r" "alice" 1 { type := some "action", action := some "lock-room" })).map
      (fun p => (p.2.err, p.2.sends,
        (dictGet p.1.rooms "r").map (fun room =>
          (dictGet room "_meta").map (fun r => r.locked)))) =
    some (some "KeyError: ws", [(1, Out.roomLock true)], some (some (some true))) := by
  rfl

/-! ### Characterization of the signaling branch -/

theorem handleMain_signaling (st : Rooms) (roomId cid : String) (w : Nat) (m : Msg)
    (room : Room) (t : String)
    (hroom : dictGet st roomId = some room)
    (htype : m.type = some "offer" ∨ m.type = some "answer" ∨ m.type = some "ice-candidate")
    (hto : m.toId = some t) (ht : t ≠ "") :
    handleMain st roomId cid w m =
      (match dictGet room t with
       | some r =>
         if isApproved r then
           (match r.ws with
            | some tw =>
              { rooms := st,
                sends := [(tw, Out.forwarded { m with msgFrom := some (m.msgFrom.getD cid) })] }
            | none => { rooms := st, err := some "KeyError: ws" })
         else
           { rooms := st, sends := [(w, Out.errorMsg ("target " ++ t ++ " not approved yet"))] }
       | none =>
         { rooms := st, sends := [(w, Out.errorMsg ("target " ++ t ++ " not in room"))] }) := by
  rw [handleMain]
  dsimp only
  rw [hroom]
  rw [if_pos htype]
  rw [hto]
  dsimp only [Option.getD_some]
  cases hget : dictGet room t with
  | some r =>
    have hmem : dictMem room t = true := (dictMem_true_iff room t).2 ⟨r, hget⟩
    rw [if_pos ⟨ht, hmem⟩]
    dsimp only [Option.getD_some]
    by_cases happ : isApproved r = true
    · rw [if_pos happ, if_pos happ, sendTo, hget]
      dsimp only [Option.some_bind]
      cases r.ws <;> rfl
    · rw [if_neg happ, if_neg happ]
  | none =>
    have hmem : dictMem room t = false := (dictMem_eq_false_iff room t).2 hget
    rw [if_neg (by simp [hmem])]

/-- Claim C7: for a signaling message carrying a (truthy) target id, the
message is delivered to exactly the target's connection iff the target
exists in the room registry with `isApproved=true` (stamped with the
setdefault `from`); otherwise the sender alone receives an error naming
the target ("not approved yet" when present but pending, "not in room"
when absent); no third participant is sent anything and the registry is
unchanged.  The hypotheses `hws`/`hmeta` state registry sanity: real
participants carry a connection, the `"_meta"` entry is never
approved. -/
theorem c7_signaling_gating (st : Rooms) (roomId cid : String) (w : Nat) (m : Msg)
    (room : Room) (t : String)
    (hroom : dictGet st roomId = some room)
    (htype : m.type = some "offer" ∨ m.type = some "answer" ∨ m.type = some "ice-candidate")
    (hto : m.toId = some t) (ht : t ≠ "")
    (hws : ∀ e ∈ room, e.1 ≠ "_meta" → e.2.ws.isSome)
    (hmeta : ∀ e ∈ room, e.1 = "_meta" → isApproved e.2 = false) :
    (handleMain st roomId cid w m).rooms = st ∧
    (handleMain st roomId cid w m).err = none ∧
    ((∃ r, dictGet room t = some r ∧ isApproved r = true) →
      ∃ r tw, dictGet room t = some r ∧ r.ws = some tw ∧
        (handleMain st roomId cid w m).sends =
          [(tw, Out.forwarded { m with msgFrom := some (m.msgFrom.getD cid) })]) ∧
    ((¬ ∃ r, dictGet room t = some r ∧ isApproved r = true) →
      (handleMain st roomId cid w m).sends =
        [(w, Out.errorMsg ("target " ++ t ++
          (if dictMem room t then " not approved yet" else " not in room")))]) := by
  rw [handleMain_signaling st roomId cid w m room t hroom htype hto ht]
  cases hget : dictGet room t with
  | some r =>
    dsimp only
    have hmem : dictMem room t = true := (dictMem_true_iff room t).2 ⟨r, hget⟩
    by_cases happ : isApproved r = true
    · have htm : t ≠ "_meta" := by
        intro hcontra
        have := hmeta (t, r) (dictGet_mem room t r hget) hcontra
        rw [happ] at this
        simp at this
      have hwss := hws (t, r) (dictGet_mem room t r hget) htm
      cases hw : r.ws with
      | none => rw [hw] at hwss; simp at hwss
      | some tw =>
        rw [if_pos happ]
        refine ⟨rfl, rfl, fun _ => ⟨r, tw, rfl, hw, rfl⟩, fun hne => ?_⟩
        exact absurd ⟨r, rfl, happ⟩ hne
    · rw [if_neg happ]
      refine ⟨rfl, rfl, fun hex => ?_, fun _ => ?_⟩
      · rcases hex with ⟨r', hr', happ'⟩
        rw [Option.some_inj] at hr'
        rw [← hr'] at happ'
        exact absurd happ' happ
      · rw [if_pos hmem]
  | none =>
    dsimp only
    have hmem : dictMem room t = false := (dictMem_eq_false_iff room t).2 hget
    refine ⟨rfl, rfl, fun hex => ?_, fun _ => ?_⟩
    · rcases hex with ⟨r', hr', _⟩
      exact absurd hr' (by simp)
    · rw [if_neg (by simp [hmem])]

/-- Witness for C7 at a concrete room: approved Bob sends an offer to
approved Alice, and the offer is forwarded to Alice's connection. -/
theorem c7_signaling_gating_witness :
    ∃ r tw,
      dictGet ((dictGet ((runSys {} twoMemberPre).getD {}).rooms "r").getD []) "alice" =
        some r ∧ r.ws = some tw ∧
      (handleMain ((runSys {} twoMemberPre).getD {}).rooms "r" "bob" 2
          { type := some "offer", toId := some "alice" }).sends =
        [(tw, Out.forwarded { type := some "offer", toId := some "alice",
                              msgFrom := some "bob" })] :=
  (c7_signaling_gating ((runSys {} twoMemberPre).getD {}).rooms "r" "bob" 2
      { type := some "offer", toId := some "alice" }
      ((dictGet ((runSys {} twoMemberPre).getD {}).rooms "r").getD []) "alice"
      rfl (Or.inl rfl) rfl (by decide) (by decide) (by decide)).2.2.1
    ⟨{ ws := some 1, displayName := some "Alice", is_host := some true,
       is_approved := some true }, rfl, rfl⟩

/-- Claim C2, amended: the sender's server-assigned id is stamped into
`from` only when the inbound message carries no `from` field —
`message.setdefault("from", client_id)` keeps a client-supplied value,
so the forwarded message's `from` is `m.msgFrom.getD cid`, not `cid`. -/
theorem c2_from_setdefault (st : Rooms) (roomId cid : String) (w : Nat) (m : Msg)
    (room : Room) (t : String) (r : Rec) (tw : Nat)
    (hroom : dictGet st roomId = some room)
    (htype : m.type = some "offer" ∨ m.type = some "answer" ∨ m.type = some "ice-candidate")
    (hto : m.toId = some t) (ht : t ≠ "")
    (hget : dictGet room t = some r) (happ : isApproved r = true) (hw : r.ws = some tw) :
    (handleMain st roomId cid w m).sends =
      [(tw, Out.forwarded { m with msgFrom := some (m.msgFrom.getD cid) })] := by
  rw [handleMain_signaling st roomId cid w m room t hroom htype hto ht, hget]
  dsimp only
  rw [if_pos happ, hw]

/-- Witness for the amended C2 theorem: with a client-supplied
`from="mallory"` the forwarded message keeps `"mallory"`. -/
theorem c2_from_setdefault_witness :
    (handleMain ((runSys {} twoMemberPre).getD {}).rooms "r" "bob" 2
        { type := some "offer", toId := some "alice", msgFrom := some "mallory" }).sends =
      [(1, Out.forwarded { type := some "offer", toId := some "alice",
                           msgFrom := some "mallory" })] :=
  c2_from_setdefault ((runSys {} twoMemberPre).getD {}).rooms "r" "bob" 2
    { type := some "offer", toId := some "alice", msgFrom := some "mallory" }
    ((dictGet ((runSys {} twoMemberPre).getD {}).rooms "r").getD []) "alice"
    { ws := some 1, displayName := some "Alice", is_host := some true,
      is_approved := some true } 1
    rfl (Or.inl rfl) rfl (by decide) rfl rfl rfl

theorem sendEach_single_eq (g : Bool) (entries : List (String × Rec))
    (keep : String × Rec → Bool) (p : Out)
    (h : ∀ e ∈ entries, keep e = true → e.2.ws.isSome) :
    sendEach g entries keep [p] =
      ((entries.filter keep).map (fun e => (e.2.ws.getD 0, p)), none) := by
  rw [sendEach_eq_of_ws g entries keep [p] h]
  congr 1
  induction entries.filter keep with
  | nil => rfl
  | cons e es ih =>
    simp only [List.flatMap_cons, List.map_cons, List.map_nil, List.singleton_append]
    simp only [List.map_cons, List.map_nil] at ih
    rw [ih]

theorem seqSends_mem (a b : List (Nat × Out) × Option String) (x : Nat × Out)
    (h : x ∈ (seqSends a b).1) : x ∈ a.1 ∨ x ∈ b.1 := by
  rw [seqSends] at h
  cases ha : a.2 with
  | none => rw [ha] at h; exact List.mem_append.1 h
  | some e => rw [ha] at h; exact Or.inl h

/-- Claim C5, amended: after admission a message whose type is not one
of the recognized tags (offer/answer/ice-candidate/chat/action/
update-name) is NOT ignored: the fallback broadcasts the whole message
(after the `from` setdefault) to every other approved participant.  No
error is sent to the sender and the registry is unchanged. -/
theorem c5_unknown_type_broadcast (st : Rooms) (roomId cid : String) (w : Nat) (m0 : Msg)
    (room : Room) (ty : String)
    (hroom : dictGet st roomId = some room)
    (hty : m0.type = some ty)
    (hnot : ty ∉ ["offer", "answer", "ice-candidate", "chat", "action", "update-name"])
    (hws : ∀ e ∈ room, isApproved e.2 = true → e.2.ws.isSome) :
    (handleMain st roomId cid w m0).rooms = st ∧
    (handleMain st roomId cid w m0).err = none ∧
    (handleMain st roomId cid w m0).sends =
      (room.filter (fun e => e.1 != cid && isApproved e.2)).map
        (fun e => (e.2.ws.getD 0,
          Out.forwarded { m0 with msgFrom := some (m0.msgFrom.getD cid) })) := by
  simp only [List.mem_cons, List.not_mem_nil, or_false, not_or] at hnot
  obtain ⟨h1, h2, h3, h4, h5, h6⟩ := hnot
  rw [handleMain]
  dsimp only
  rw [hroom]
  dsimp only [Option.getD_some]
  rw [hty]
  rw [if_neg (by simp [h1, h2, h3])]
  rw [if_neg (by simp [h4])]
  rw [if_neg (by simp [h5])]
  rw [if_neg (by simp [h6])]
  have hks : ∀ e ∈ room, (e.1 != cid && isApproved e.2) = true → e.2.ws.isSome := by
    intro e he hk
    rw [Bool.and_eq_true] at hk
    exact hws e he hk.2
  rw [sendEach_single_eq false room _ _ hks]
  exact ⟨rfl, rfl, rfl⟩

/-- Witness for the amended C5 theorem: in the two-member room, Alice's
`{type="bogus"}` is broadcast to Bob. -/
theorem c5_unknown_type_broadcast_witness :
    (handleMain ((runSys {} twoMemberPre).getD {}).rooms "r" "alice" 1
        { type := some "bogus" }).sends =
      (((dictGet ((runSys {} twoMemberPre).getD {}).rooms "r").getD []).filter
        (fun e => e.1 != "alice" && isApproved e.2)).map
        (fun e => (e.2.ws.getD 0,
          Out.forwarded { type := some "bogus", msgFrom := some "alice" })) :=
  (c5_unknown_type_broadcast ((runSys {} twoMemberPre).getD {}).rooms "r" "alice" 1
    { type := some "bogus" }
    ((dictGet ((runSys {} twoMemberPre).getD {}).rooms "r").getD []) "bogus"
    rfl rfl (by decide) (by decide)).2.2

theorem mem_ite_list {c : Prop} [Decidable c] {a b : List β} {x : β}
    (h : x ∈ if c then a else b) : x ∈ a ∨ x ∈ b := by
  split at h
  · exact Or.inl h
  · exact Or.inr h

theorem notifyPending_payloads (stNew : Rooms) (room2 : Room) (cid dn : String) (w : Nat) :
    ∀ s ∈ (notifyPending stNew room2 cid dn w).sends,
      s.2 = Out.waiting ∨ s.2 = Out.joinRequest cid dn := by
  intro s hs
  rw [notifyPending] at hs
  dsimp only at hs
  rcases seqSends_mem _ _ s hs with h1 | h1
  · rw [List.mem_singleton] at h1
    rw [h1]
    exact Or.inl rfl
  · have hp := sendEach_payload _ _ _ _ s.1 s.2 h1
    rw [List.mem_singleton] at hp
    exact Or.inr hp

theorem notifyApproved_payloads (stNew : Rooms) (room2 : Room) (cid : String) (w : Nat) :
    ∀ s ∈ (notifyApproved stNew room2 cid w).sends,
      s.2 = Out.welcome cid (participantsList room2) (hostIdOf room2) ∨
      s.2 = Out.participantJoined (mkParticipantInfo cid ((dictGet room2 cid).getD {})) ∨
      s.2 = Out.needOffer cid := by
  intro s hs
  rw [notifyApproved] at hs
  dsimp only at hs
  rcases seqSends_mem _ _ s hs with h1 | h1
  · rw [List.mem_singleton] at h1
    rw [h1]
    exact Or.inl rfl
  · rcases seqSends_mem _ _ s h1 with h2 | h2
    · have hp := sendEach_payload _ _ _ _ s.1 s.2 h2
      rw [List.mem_singleton] at hp
      exact Or.inr (Or.inl hp)
    · have hp := sendEach_payload _ _ _ _ s.1 s.2 h2
      rw [List.mem_singleton] at hp
      exact Or.inr (Or.inr hp)

/-- Claim C4, amended: on Pending entry the joiner is sent `waiting` and
every host a `join-request` — and that is all: no pending-list payload
of type `"pending"` exists in the protocol.  Neither the join handshake
handler nor the disconnect cleanup ever emits a message whose type tag
is `"pending"` (the concrete counterexample lists the exact sends). -/
theorem c4_no_pending_payload (st : Rooms) (roomId cid : String) (w : Nat) (m : Msg) :
    (∀ s ∈ (handleFirst st roomId cid w m).sends, outType s.2 ≠ "pending") ∧
    (∀ s ∈ (handleDisconnect st roomId cid).sends, outType s.2 ≠ "pending") := by
  constructor
  · rw [handleFirst]
    intro s hs
    split at hs
    · dsimp only at hs
      rw [List.mem_singleton] at hs
      rw [hs]
      simp [outType]
    · rw [apply_ite HRes.sends] at hs
      rcases mem_ite_list hs with h' | h'
      · rcases notifyPending_payloads _ _ _ _ _ s h' with h2 | h2 <;>
          (rw [h2]; simp [outType])
      · rcases notifyApproved_payloads _ _ _ _ s h' with h2 | h2 | h2 <;>
          (rw [h2]; simp [outType])
  · rw [handleDisconnect]
    intro s hs
    split at hs
    · simp at hs
    · split at hs
      · dsimp only at hs
        split at hs
        all_goals
          try dsimp only at hs
        all_goals
          have hp := sendEach_payload _ _ _ _ s.1 s.2 hs
        all_goals
          rcases List.mem_cons.1 hp with h1 | h1
        all_goals try (rw [h1]; simp [outType])
        all_goals rw [List.mem_singleton] at h1
        all_goals rw [h1]
        all_goals simp [outType]
      · split at hs
        · simp at hs
        · simp at hs

/-- Claim C9, amended: display names are stored verbatim, with no
64-character truncation anywhere.  On join, the generated default
`User-<id>` is used only when the `displayName` key is absent from the
message — an empty string is stored as-is; `update-name` stores the
supplied name verbatim, defaulting to the empty string when the key is
absent. -/
theorem c9_names_stored_verbatim (st : Rooms) (roomId cid : String) (w : Nat) (m m2 : Msg)
    (room : Room) (r0 : Rec)
    (hroom : dictGet st roomId = some room)
    (hmem : dictGet room cid = some r0)
    (hjoin : m.type = some "join")
    (hupd : m2.type = some "update-name") :
    (∃ r', dictGet ((dictGet (handleFirst st roomId cid w m).rooms roomId).getD []) cid =
        some r' ∧ r'.displayName = some (m.displayName.getD ("User-" ++ cid))) ∧
    (∃ r', dictGet ((dictGet (handleMain st roomId cid w m2).rooms roomId).getD []) cid =
        some r' ∧ r'.displayName = some (m2.displayName.getD "")) := by
  constructor
  · rw [handleFirst]
    rw [if_neg (by simp [hjoin])]
    dsimp only
    rw [apply_ite HRes.rooms,
        show ∀ a b c d e, (notifyPending a b c d e).rooms = a from fun _ _ _ _ _ => rfl,
        show ∀ a b c d, (notifyApproved a b c d).rooms = a from fun _ _ _ _ => rfl,
        ite_self, dictGet_dictSet_self]
    dsimp only [Option.getD_some]
    rw [hroom]
    dsimp only [Option.getD_some]
    split
    · rw [dictGet_dictModify_self, dictGet_dictModify_self, hmem]
      exact ⟨_, rfl, rfl⟩
    · split
      · rw [dictGet_dictModify_self, dictGet_dictModify_self, hmem]
        exact ⟨_, rfl, rfl⟩
      · rw [dictGet_dictModify_self, dictGet_dictModify_self, hmem]
        exact ⟨_, rfl, rfl⟩
  · rw [handleMain]
    dsimp only
    rw [hroom]
    dsimp only [Option.getD_some]
    rw [hupd]
    rw [if_neg (by simp)]
    rw [if_neg (by simp)]
    rw [if_neg (by simp)]
    rw [if_pos rfl]
    dsimp only
    rw [dictGet_dictSet_self]
    dsimp only [Option.getD_some]
    rw [dictGet_dictModify_self, hmem]
    exact ⟨_, rfl, rfl⟩

/-- Witness for the amended C9 theorem: joining with a 65-character name
stores it unchanged, and an update-name for Alice stores the supplied
name unchanged. -/
theorem c9_names_stored_verbatim_witness :
    (∃ r', dictGet ((dictGet (handleFirst
        ((runSys {} [ .connect "r" "alice" 1 ]).getD {}).rooms "r" "alice" 1
        (joinMsg (String.mk (List.replicate 65 'x')))).rooms "r").getD []) "alice" =
        some r' ∧ r'.displayName =
          some ((joinMsg (String.mk (List.replicate 65 'x'))).displayName.getD
            ("User-" ++ "alice"))) ∧
    (∃ r', dictGet ((dictGet (handleMain
        ((runSys {} [ .connect "r" "alice" 1 ]).getD {}).rooms "r" "alice" 1
        { type := some "update-name", displayName := some "Zed" }).rooms "r").getD [])
        "alice" = some r' ∧ r'.displayName =
          some (({ type := some "update-name",
                   displayName := some "Zed" } : Msg).displayName.getD "")) :=
  c9_names_stored_verbatim ((runSys {} [ .connect "r" "alice" 1 ]).getD {}).rooms
    "r" "alice" 1 (joinMsg (String.mk (List.replicate 65 'x')))
    { type := some "update-name", displayName := some "Zed" }
    ((dictGet ((runSys {} [ .connect "r" "alice" 1 ]).getD {}).rooms "r").getD [])
    (connectRec 1) rfl rfl rfl rfl

theorem ite_prop {c : Prop} [Decidable c] {P : γ → Prop} {a b : γ}
    (ha : P a) (hb : P b) : P (if c then a else b) := by
  split
  · exact ha
  · exact hb

theorem actionReject_rooms (st : Rooms) (cid : String) (room : Room) (t : String) :
    (actionReject st cid room t).rooms = st := by
  rw [actionReject]
  repeat' split
  all_goals rfl

theorem actionKick_rooms (st : Rooms) (cid : String) (room : Room) (t : String) :
    (actionKick st cid room t).rooms = st := by
  rw [actionKick]
  repeat' split
  all_goals rfl

theorem promote_dictGet_none (room1 : Room) (t : String)
    (h : dictGet room1 t = none) : dictGet (promote room1) t = none := by
  rw [promote]
  split
  · next k hk =>
    by_cases hkt : t = k
    · rw [hkt, dictGet_dictModify_self]
      rw [hkt] at h
      rw [h]
      rfl
    · rw [dictGet_dictModify_ne _ _ _ _ hkt]
      exact h
  · exact h

/-- Claim C10: the `reject` and `kick` handlers leave the registry
completely unchanged (the target's entry — id, name, flags — included);
they only send a command and close the target's connection.  The entry
disappears only when the target's own disconnect event is processed,
which removes it from the room. -/
theorem c10_reject_kick_frame (st : Rooms) (roomId cid : String) (w : Nat) (m : Msg)
    (room : Room) (t : String)
    (hroom : dictGet st roomId = some room)
    (htype : m.type = some "action")
    (hact : m.action = some "reject" ∨ m.action = some "kick")
    (htgt : dictMem room t = true) :
    (handleMain st roomId cid w m).rooms = st ∧
    dictGet ((dictGet (handleMain st roomId cid w m).rooms roomId).getD []) t =
      dictGet room t ∧
    (dictGet (handleDisconnect st roomId t).rooms roomId).bind
      (fun rm => dictGet rm t) = none := by
  have hrooms : (handleMain st roomId cid w m).rooms = st := by
    rw [handleMain]
    dsimp only
    rw [hroom]
    dsimp only [Option.getD_some]
    rw [htype]
    rw [if_neg (by simp)]
    rw [if_neg (by simp)]
    rw [if_pos rfl]
    rw [handleAction]
    dsimp only
    repeat' split
    all_goals try rfl
    all_goals try (exact actionReject_rooms st cid room _)
    all_goals try (exact actionKick_rooms st cid room _)
    all_goals rcases hact with ha | ha
    all_goals simp_all
  refine ⟨hrooms, by rw [hrooms, hroom]; rfl, ?_⟩
  rw [handleDisconnect, hroom]
  dsimp only
  rw [if_pos htgt]
  try dsimp only
  generalize hR2 : (if isHost ((dictGet room t).getD {}) ∧
      ¬(dictErase room t).isEmpty then promote (dictErase room t)
      else dictErase room t) = room2x
  have hgone : dictGet room2x t = none := by
    rw [← hR2]
    split
    · exact promote_dictGet_none _ _ (dictGet_dictErase_self room t)
    · exact dictGet_dictErase_self room t
  split
  · dsimp only
    rw [dictGet_dictSet_self]
    dsimp only [Option.some_bind]
    exact hgone
  · dsimp only
    split
    · rw [dictGet_dictErase_self]
      rfl
    · rw [dictGet_dictSet_self]
      dsimp only [Option.some_bind]
      exact hgone

/-- Witness for C10: the host Alice kicks Bob; the registry (Bob's
entry included) is unchanged, and Bob's entry disappears once his
disconnect is processed. -/
theorem c10_reject_kick_frame_witness :
    (handleMain ((runSys {} twoMemberPre).getD {}).rooms "r" "alice" 1
        { type := some "action", action := some "kick", target := some "bob" }).rooms =
      ((runSys {} twoMemberPre).getD {}).rooms ∧
    dictGet ((dictGet (handleMain ((runSys {} twoMemberPre).getD {}).rooms "r" "alice" 1
        { type := some "action", action := some "kick", target := some "bob" }).rooms
        "r").getD []) "bob" =
      dictGet ((dictGet ((runSys {} twoMemberPre).getD {}).rooms "r").getD []) "bob" ∧
    (dictGet (handleDisconnect ((runSys {} twoMemberPre).getD {}).rooms "r" "bob").rooms
        "r").bind (fun rm => dictGet rm "bob") = none :=
  c10_reject_kick_frame ((runSys {} twoMemberPre).getD {}).rooms "r" "alice" 1
    { type := some "action", action := some "kick", target := some "bob" }
    ((dictGet ((runSys {} twoMemberPre).getD {}).rooms "r").getD []) "bob"
    rfl rfl (Or.inr rfl) (by decide)

theorem dictGet_of_mem_nodup (d : List (String × α)) (k : String) (v : α)
    (hnd : (d.map Prod.fst).Nodup) (h : (k, v) ∈ d) : dictGet d k = some v := by
  induction d with
  | nil => simp at h
  | cons e es ih =>
    simp only [List.map_cons, List.nodup_cons] at hnd
    rcases List.mem_cons.1 h with h' | h'
    · rw [← h', dictGet_cons]
      simp
    · rw [dictGet_cons]
      have hk : k ∈ es.map Prod.fst := by
        rw [List.mem_map]
        exact ⟨(k, v), h', rfl⟩
      have hne : (e.1 == k) = false := by
        by_contra hcontra
        have he1 : e.1 = k := by simpa using hcontra
        exact hnd.1 (he1 ▸ hk)
      rw [hne]
      simp only [Bool.false_eq_true, if_false]
      exact ih hnd.2 h'

theorem find?_eq_head?_filter (p : α → Bool) (l : List α) :
    l.find? p = (l.filter p).head? := by
  induction l with
  | nil => rfl
  | cons x xs ih =>
    cases hp : p x with
    | true =>
      rw [List.find?_cons_of_pos _ hp, List.filter_cons_of_pos hp, List.head?_cons]
    | false =>
      rw [List.find?_cons_of_neg _ (by simp [hp]), List.filter_cons_of_neg (by simp [hp]), ih]

theorem filter_isHost_modify (room : Room) (k : String) (rk : Rec)
    (hall : ∀ e ∈ room, isHost e.2 = false)
    (hget : dictGet room k = some rk) :
    (dictModify room k (fun r => { r with is_host := some true })).filter
      (fun e => isHost e.2) = [(k, { rk with is_host := some true })] := by
  induction room with
  | nil => simp [dictGet] at hget
  | cons e es ih =>
    rw [dictGet_cons] at hget
    cases hb : e.1 == k with
    | true =>
      rw [hb, if_pos rfl] at hget
      rw [Option.some_inj] at hget
      have he1 : e.1 = k := by simpa using hb
      rw [dictModify, if_pos hb]
      rw [List.filter_cons_of_pos (by rfl)]
      have hes : es.filter (fun e => isHost e.2) = [] := by
        rw [List.filter_eq_nil_iff]
        intro x hx
        simp [hall x (List.mem_cons_of_mem _ hx)]
      rw [hes, he1, hget]
    | false =>
      rw [hb] at hget
      simp only [Bool.false_eq_true, if_false] at hget
      rw [dictModify, if_neg (by simp [hb]),
        List.filter_cons_of_neg (by simp [hall e (List.mem_cons_self _ _)])]
      exact ih (fun x hx => hall x (List.mem_cons_of_mem _ hx)) hget

/-- Claim C8: when a host disconnects and at least one approved
participant remains, exactly one participant — the FIRST approved entry
in registry insertion order — is promoted to host, and each remaining
approved participant is sent the `participant-left` notice followed by a
`participants-update` carrying the refreshed roster and the promoted
participant's id as the new host id.  Hypotheses state the sanity of the
room: unique keys, at most one host, `"_meta"` neither host nor
approved, participants carrying connections. -/
theorem c8_host_promotion (st : Rooms) (roomId cid : String)
    (room : Room) (r0 : Rec)
    (hroom : dictGet st roomId = some room)
    (hget : dictGet room cid = some r0)
    (hhost : isHost r0 = true)
    (hcid : cid ≠ "_meta")
    (hnd : (room.map Prod.fst).Nodup)
    (hhc : hostCount room ≤ 1)
    (hmetah : ∀ e ∈ room, e.1 = "_meta" → isHost e.2 = false)
    (hmetaa : ∀ e ∈ room, e.1 = "_meta" → isApproved e.2 = false)
    (hws : ∀ e ∈ room, e.1 ≠ "_meta" → e.2.ws.isSome)
    (hex : ∃ e ∈ dictErase room cid, isApproved e.2 = true) :
    ∃ k rk pre post,
      dictErase room cid = pre ++ (k, rk) :: post ∧
      (∀ e ∈ pre, isApproved e.2 = false) ∧ isApproved rk = true ∧
      ∃ room2, dictGet (handleDisconnect st roomId cid).rooms roomId = some room2 ∧
        (room2.filter (fun e => isHost e.2)).map Prod.fst = [k] ∧
        hostIdOf room2 = some k ∧
        (handleDisconnect st roomId cid).err = none ∧
        (handleDisconnect st roomId cid).sends =
          (room2.filter (fun e => isApproved e.2)).flatMap (fun e =>
            [(e.2.ws.getD 0, Out.participantLeft cid (r0.displayName.getD cid)),
             (e.2.ws.getD 0, Out.participantsUpdate (participantsList room2) (some k))]) := by
  -- the first approved entry of the shrunken registry
  have hfind : ∃ ekr, (dictErase room cid).find? (fun e => isApproved e.2) = some ekr := by
    rcases hex with ⟨e, he, ha⟩
    cases hf : (dictErase room cid).find? (fun e => isApproved e.2) with
    | some ekr => exact ⟨ekr, rfl⟩
    | none =>
      exfalso
      have := List.find?_eq_none.1 hf e he
      rw [ha] at this
      exact this rfl
  rcases hfind with ⟨⟨k, rk⟩, hf⟩
  obtain ⟨pre, post, hsplit, hpre, hpk⟩ := find?_split _ _ _ hf
  have hmem1 : (k, rk) ∈ dictErase room cid := by
    rw [hsplit]
    exact List.mem_append.2 (Or.inr (List.mem_cons_self _ _))
  have hnd1 : ((dictErase room cid).map Prod.fst).Nodup := dictErase_keys_nodup _ _ hnd
  have hget1 : dictGet (dictErase room cid) k = some rk :=
    dictGet_of_mem_nodup _ _ _ hnd1 hmem1
  have hner : ¬ (dictErase room cid).isEmpty = true := by
    rw [hsplit]
    cases pre <;> simp
  have hall1 : ∀ e ∈ dictErase room cid, hostPred e = false :=
    hostCount_erase_zero room cid r0 hget hhost hcid hhc
  have hallH : ∀ e ∈ dictErase room cid, isHost e.2 = false := by
    intro e he
    by_cases hm : e.1 = "_meta"
    · exact hmetah e (mem_dictErase _ _ _ he) hm
    · have hp := hall1 e he
      rw [hostPred, Bool.and_eq_false_iff] at hp
      rcases hp with hp | hp
      · exfalso
        rw [bne_eq_false_iff_eq] at hp
        exact hm hp
      · exact hp
  -- abbreviations
  set room1 := dictErase room cid with hroom1def
  set room2 := dictModify room1 k (fun r => { r with is_host := some true }) with hroom2def
  have hfa : firstApproved room1 = some k := by
    rw [firstApproved, hf]
    rfl
  -- hosts of the promoted room
  have hfilter : room2.filter (fun e => isHost e.2) = [(k, { rk with is_host := some true })] :=
    filter_isHost_modify room1 k rk hallH hget1
  have hhid : hostIdOf room2 = some k := by
    rw [hostIdOf, find?_eq_head?_filter, hfilter]
    rfl
  -- room2 facts for the fan-out
  have hmemroom : ∀ e ∈ room1, e ∈ room := fun e he => mem_dictErase _ _ _ he
  have hkmeta : k ≠ "_meta" := by
    intro hcontra
    have := hmetaa (k, rk) (hmemroom _ hmem1) hcontra
    rw [this] at hpk
    exact Bool.false_ne_true hpk
  have hws2 : ∀ e ∈ room2, isApproved e.2 = true → e.2.ws.isSome := by
    intro e he ha
    rcases mem_dictModify _ _ _ _ he with h' | ⟨e0, he0, hk0, heq⟩
    · have hem : e.1 ≠ "_meta" := by
        intro hcontra
        have := hmetaa e (hmemroom _ h') hcontra
        rw [this] at ha
        exact Bool.false_ne_true ha
      exact hws e (hmemroom _ h') hem
    · rw [heq]
      have hem : e0.1 ≠ "_meta" := hk0 ▸ hkmeta
      exact hws e0 (hmemroom _ he0) hem
  have hsends := sendEach_eq_of_ws false room2 (fun e => isApproved e.2)
    [Out.participantLeft cid (r0.displayName.getD cid),
     Out.participantsUpdate (participantsList room2) (hostIdOf room2)] hws2
  have hne2 : ¬ room2.isEmpty = true := by
    intro hcontra
    rw [List.isEmpty_iff] at hcontra
    have : (room2.filter (fun e => isHost e.2)) = [] := by rw [hcontra]; rfl
    rw [hfilter] at this
    simp at this
  -- unfold the handler
  rw [handleDisconnect, hroom]
  try dsimp only
  rw [(dictMem_true_iff room cid).2 ⟨r0, hget⟩]
  rw [if_pos rfl]
  try dsimp only
  rw [hget]
  try dsimp only [Option.getD_some]
  rw [if_pos ⟨hhost, hner⟩]
  rw [promote, hfa]
  try dsimp only
  rw [← hroom2def]
  rw [hsends]
  try dsimp only
  rw [if_neg hne2]
  refine ⟨k, rk, pre, post, hsplit, ?_, hpk, room2, ?_, ?_, hhid, rfl, ?_⟩
  · intro e he
    exact hpre e he
  · rw [dictGet_dictSet_self]
  · rw [hfilter]
    rfl
  · rw [hhid]
    rfl

/-- Witness for C8 (spec Scenario C): host Alice disconnects while
approved Bob remains; Bob — the first approved entry — is promoted and
receives the refreshed roster with himself as host. -/
theorem c8_host_promotion_witness :
    ∃ k rk pre post,
      dictErase ((dictGet ((runSys {} twoMemberPre).getD {}).rooms "r").getD [])
        "alice" = pre ++ (k, rk) :: post ∧
      (∀ e ∈ pre, isApproved e.2 = false) ∧ isApproved rk = true ∧
      ∃ room2,
        dictGet (handleDisconnect ((runSys {} twoMemberPre).getD {}).rooms
          "r" "alice").rooms "r" = some room2 ∧
        (room2.filter (fun e => isHost e.2)).map Prod.fst = [k] ∧
        hostIdOf room2 = some k ∧
        (handleDisconnect ((runSys {} twoMemberPre).getD {}).rooms "r" "alice").err =
          none ∧
        (handleDisconnect ((runSys {} twoMemberPre).getD {}).rooms "r" "alice").sends =
          (room2.filter (fun e => isApproved e.2)).flatMap (fun e =>
            [(e.2.ws.getD 0, Out.participantLeft "alice"
                (({ ws := some 1, displayName := some "Alice", is_host := some true,
                    is_approved := some true } : Rec).displayName.getD "alice")),
             (e.2.ws.getD 0, Out.participantsUpdate (participantsList room2) (some k))]) :=
  c8_host_promotion ((runSys {} twoMemberPre).getD {}).rooms "r" "alice"
    ((dictGet ((runSys {} twoMemberPre).getD {}).rooms "r").getD [])
    { ws := some 1, displayName := some "Alice", is_host := some true,
      is_approved := some true }
    rfl rfl rfl (by decide) (by decide) (by decide) (by decide) (by decide) (by decide)
    (by decide)

/-- Claim C2, counterexample: approved Bob sends
`offer{to=alice, from="mallory"}`.  The claim says the forwarded message
carries Bob's server-assigned id in `from`; the code uses
`message.setdefault("from", client_id)`, which KEEPS a client-supplied
value, so Alice receives the offer with `from="mallory"`. -/
theorem c2_counterexample :
    (runThen {} twoMemberPre
        (.mainMsg "r" "bob" 2 { type := some "offer", toId := some "alice",
                                msgFrom := some "mallory" })).map (fun p => p.2.sends) =
    some [(1, Out.forwarded { type := some "offer", toId := some "alice",
                              msgFrom := some "mallory" })] := by
  rfl

/-- Claim C4, counterexample: Bob enters Pending in room `"r"` whose
host is Alice.  The only messages sent are `waiting` to Bob and a single
`join-request` to Alice: no payload of type `"pending"` exists anywhere
in the code, on Pending entry or on disconnect (Bob's disconnect
produces only `participant-left` / `participants-update` to Alice). -/
theorem c4_counterexample :
    ((runThen {} approvalRoomPre (.firstMsg "r" "bob" 2 (joinMsg "Bob"))).map
      (fun p => p.2.sends) =
      some [(2, Out.waiting), (1, Out.joinRequest "bob" "Bob")]) ∧
    ((runThen {} (approvalRoomPre ++ [.firstMsg "r" "bob" 2 (joinMsg "Bob")])
        (.disconnect "r" "bob")).map
      (fun p => p.2.sends.map (fun s => outType s.2)) =
      some ["participant-left", "participants-update"]) := by
  exact ⟨rfl, rfl⟩

/-- Claim C5, counterexample: the claim says a message of unknown type
is silently ignored with nothing broadcast.  Host Alice sends
`{type="bogus"}` in a two-member room; approved participant Bob receives
the whole message (the fallback at lines 295-300 broadcasts unknown
types to the other approved participants). -/
theorem c5_counterexample :
    (runThen {} twoMemberPre (.mainMsg "r" "alice" 1 { type := some "bogus" })).map
      (fun p => p.2.sends) =
    some [(2, Out.forwarded { type := some "bogus", msgFrom := some "alice" })] := by
  rfl

/-- Claim C9, counterexample: a join with a 65-character `displayName`
stores all 65 characters (no truncation anywhere in the code), and a
join carrying `displayName=""` keeps the empty string instead of the
generated default (`dict.get` only falls back when the key is absent). -/
theorem c9_counterexample :
    ((((runSys {} [ .connect "r" "alice" 1,
        .firstMsg "r" "alice" 1 (joinMsg (String.mk (List.replicate 65 'x'))) ]).bind
      (fun s => dictGet s.rooms "r")).bind (fun room => dictGet room "alice")).map
      (fun r => (r.displayName.getD "").length) = some 65) ∧
    ((((runSys {} [ .connect "r" "alice" 1,
        .firstMsg "r" "alice" 1 (joinMsg "") ]).bind
      (fun s => dictGet s.rooms "r")).bind (fun room => dictGet room "alice")).map
      (fun r => r.displayName) = some (some "")) := by
  exact ⟨rfl, rfl⟩
